import Mathlib

/-!
Verification development for the TrustPVP session/matchmaking engine
(src/index.js).  The engine is shallowly embedded: the process-wide
`gameState` object becomes an explicit `EngineState` record, each
Socket.IO handler becomes a pure function `EngineState → EngineState ×
List Emit`, JS `Map`s become association lists (JS maps have unique
keys, so structural recursion over the list is a faithful model of
`get`/`set`/`delete`), the JS `Set` of waiting players becomes an
insertion-ordered list, and the Redis store becomes a typed association
list (the text-level serialization of numeric fields and its parse are
modelled separately below and proved inverse on engine-written values).
Persistence failures are modelled by a list of write fates carried in
the state: each Redis write consumes one fate; `false` means the write
rejects (as Redis does during an outage), `true` (or an exhausted list)
means it succeeds.  Wall-clock timestamps are passed in as opaque
naturals.
-/

namespace TrustPVP

/-- Player identifiers (UUID strings in the source). -/
abbrev PlayerId := String

/-- Socket identifiers (socket.io connection ids). -/
abbrev SocketId := String

/-- The two legal values of a submitted choice, the strings
`'cooperate'` and `'betray'` in the source. -/
inductive Choice where
  | cooperate : Choice
  | betray : Choice
deriving DecidableEq, Repr

/-- The payoff matrix `gameState.globalRewards` (src/index.js lines
48-53): four scalar constants. -/
structure Rewards where
  cooperate : Int
  betray : Int
  bothCooperate : Int
  bothBetray : Int
deriving DecidableEq, Repr

/-- Initial value of `gameState.globalRewards`. -/
def initialRewards : Rewards :=
  { cooperate := 3, betray := 5, bothCooperate := 2, bothBetray := 1 }

/-- One element of a player's `history` array as pushed by the
`makeChoice` handler (src/index.js lines 311-317): round index, choice,
score before settlement, timestamp, and the payoff-matrix snapshot
`\x7b ...gameState.globalRewards \x7d` taken at submission time. -/
structure HistoryEntry where
  round : Nat
  choice : Choice
  score : Int
  timestamp : Nat
  rewards : Rewards
deriving DecidableEq, Repr

/-- An in-memory player record as kept in `gameState.players`. -/
structure Player where
  id : PlayerId
  name : String
  score : Int
  history : List HistoryEntry
  currentRound : Nat
  currentChoice : Option Choice
  totalGames : Nat
deriving DecidableEq, Repr

/-- `GAME_CONFIG.INITIAL_SCORE` (src/index.js lines 35-40). -/
def INITIAL_SCORE : Int := 100

/-- `GAME_CONFIG.MAX_ROUNDS`. -/
def MAX_ROUNDS : Nat := 100

/-- `GAME_CONFIG.HISTORY_LIMIT`. -/
def HISTORY_LIMIT : Nat := 100

/-- `GAME_CONFIG.MIN_SCORE`. -/
def MIN_SCORE : Int := 0

section MapOps

variable {α : Type} {β : Type} [DecidableEq α]

/-- JS `Map.get`: the value stored under a key, if present. -/
def mapGet : List (α × β) → α → Option β
  | [], _ => none
  | (k1, v) :: t, k => if k1 = k then some v else mapGet t k

/-- JS `Map.set`: replace the value in place when the key is present,
otherwise append the new binding. -/
def mapSet : List (α × β) → α → β → List (α × β)
  | [], k, v => [(k, v)]
  | (k1, v1) :: t, k, v =>
    if k1 = k then (k, v) :: t else (k1, v1) :: mapSet t k v

/-- JS `Map.delete`: remove the binding for a key (idempotent). -/
def mapDelete : List (α × β) → α → List (α × β)
  | [], _ => []
  | (k1, v1) :: t, k =>
    if k1 = k then mapDelete t k else (k1, v1) :: mapDelete t k

/-- JS `Set.add`: append the element unless it is already a member
(insertion order preserved). -/
def setAdd (l : List α) (x : α) : List α :=
  if x ∈ l then l else l ++ [x]

/-- JS `Set.delete`: remove the element (idempotent). -/
def setDelete : List α → α → List α
  | [], _ => []
  | y :: t, x => if y = x then setDelete t x else y :: setDelete t x

theorem mapGet_mapSet_self (m : List (α × β)) (k : α) (v : β) :
    mapGet (mapSet m k v) k = some v := by
  induction m with
  | nil => simp [mapGet, mapSet]
  | cons a t ih =>
    obtain ⟨k1, v1⟩ := a
    by_cases h : k1 = k
    · simp [mapSet, mapGet, h]
    · simp [mapSet, mapGet, h, ih]

theorem mapGet_mapSet_ne (m : List (α × β)) (k k1 : α) (v : β) (h : k1 ≠ k) :
    mapGet (mapSet m k v) k1 = mapGet m k1 := by
  have hne : ¬ k = k1 := fun hh => h hh.symm
  induction m with
  | nil => simp [mapGet, mapSet, hne]
  | cons a t ih =>
    obtain ⟨k2, v2⟩ := a
    by_cases h2 : k2 = k
    · by_cases h3 : k2 = k1
      · exact absurd (h3.symm.trans h2) h
      · simp [mapSet, mapGet, h2, h3, hne]
    · by_cases h3 : k2 = k1 <;> simp [mapSet, mapGet, h2, h3, hne, h, ih]

theorem mapGet_mapDelete_self (m : List (α × β)) (k : α) :
    mapGet (mapDelete m k) k = none := by
  induction m with
  | nil => rfl
  | cons a t ih =>
    obtain ⟨k1, v1⟩ := a
    by_cases h : k1 = k <;> simp [mapDelete, mapGet, h, ih]

theorem mapGet_mapDelete_ne (m : List (α × β)) (k k1 : α) (h : k1 ≠ k) :
    mapGet (mapDelete m k) k1 = mapGet m k1 := by
  have hne : ¬ k = k1 := fun hh => h hh.symm
  induction m with
  | nil => rfl
  | cons a t ih =>
    obtain ⟨k2, v2⟩ := a
    by_cases h2 : k2 = k
    · by_cases h3 : k2 = k1
      · exact absurd (h3.symm.trans h2) h
      · simp [mapDelete, mapGet, h2, h3, hne, ih]
    · by_cases h3 : k2 = k1 <;> simp [mapDelete, mapGet, h2, h3, hne, h, ih]

theorem mem_setAdd {l : List α} {x y : α} :
    y ∈ setAdd l x ↔ y ∈ l ∨ y = x := by
  unfold setAdd
  by_cases h : x ∈ l
  · simp only [h, if_true]
    constructor
    · exact Or.inl
    · rintro (hy | rfl) <;> [exact hy; exact h]
  · simp [h]

theorem mem_setDelete {l : List α} {x y : α} :
    y ∈ setDelete l x ↔ y ∈ l ∧ y ≠ x := by
  induction l with
  | nil => simp [setDelete]
  | cons a t ih =>
    by_cases h : a = x
    · rw [show setDelete (a :: t) x = setDelete t x by simp [setDelete, h], ih]
      simp only [List.mem_cons]
      constructor
      · rintro ⟨hy, hne⟩
        exact ⟨Or.inr hy, hne⟩
      · rintro ⟨hy | hy, hne⟩
        · exact absurd (hy.trans h) hne
        · exact ⟨hy, hne⟩
    · rw [show setDelete (a :: t) x = a :: setDelete t x by simp [setDelete, h]]
      simp only [List.mem_cons, ih]
      constructor
      · rintro (rfl | ⟨hy, hne⟩)
        · exact ⟨Or.inl rfl, h⟩
        · exact ⟨Or.inr hy, hne⟩
      · rintro ⟨hy | hy, hne⟩
        · exact Or.inl hy
        · exact Or.inr ⟨hy, hne⟩

end MapOps

/-- One outbound socket.io message, as emitted by the handlers. -/
inductive ServerMsg where
  | loginSuccess (playerData : Player) (isNewPlayer : Bool)
  | gameJoined (playerData : Player) (globalRewards : Rewards)
  | matchFound (opponent : PlayerId) (opponentName : String)
      (opponentHistory : List HistoryEntry)
  | roundComplete (score : Int) (totalScore : Int) (opponentChoice : Choice)
      (opponentName : String)
  | gameEnd (finalScore : Int) (history : List HistoryEntry) (rounds : Nat)
      (message : String)
  | opponentDisconnected (message : String)
  | errorMsg (message : String)
deriving DecidableEq, Repr

/-- A message addressed to one socket (`io.to(socketId).emit(...)` or
`socket.emit(...)`). -/
structure Emit where
  toSock : SocketId
  msg : ServerMsg
deriving DecidableEq, Repr

/-- The process-wide mutable state `gameState` (src/index.js lines
43-54) together with the Redis store and the pending write fates. -/
structure EngineState where
  players : List (PlayerId × Player)
  waitingPlayers : List PlayerId
  matchesMap : List (PlayerId × PlayerId)
  socketToPlayerId : List (SocketId × PlayerId)
  globalRewards : Rewards
  redis : List (PlayerId × Player)
  fates : List Bool
deriving DecidableEq, Repr

/-- The engine state of a fresh process with a fresh store; the fate
list of the run's persistence writes is a parameter. -/
def initState (fates : List Bool) : EngineState :=
  { players := [], waitingPlayers := [], matchesMap := [], socketToPlayerId := []
    globalRewards := initialRewards, redis := [], fates := fates }

/-- `findSocketByPlayerId` (src/index.js lines 426-431): first socket id
mapped to the given player id, else null. -/
def findSocketByPlayerId (s : EngineState) (playerId : PlayerId) : Option SocketId :=
  (s.socketToPlayerId.find? (fun p => p.2 = playerId)).map (·.1)

/-- `findOpponent` (src/index.js lines 434-436): `gameState.matches.get(playerId)`. -/
def findOpponent (s : EngineState) (playerId : PlayerId) : Option PlayerId :=
  mapGet s.matchesMap playerId

/-- `updatePlayerRedisData` (src/index.js lines 653-673): one Redis
`hSet` of the full record; any error is caught and only logged, so the
caller always continues.  The write consumes one fate.  The JS `||`
fallbacks apply to falsy field values: an empty id falls back to the
key, an empty name to the anonymous name, and — notably — a score of
exactly 0 is falsy, so `String(player.score || INITIAL_SCORE)` persists
the INITIAL_SCORE instead. -/
def storedRecord (playerId : PlayerId) (player : Player) : Player :=
  { player with
    id := if player.id = "" then playerId else player.id
    name := if player.name = "" then "匿名玩家" else player.name
    score := if player.score = 0 then INITIAL_SCORE else player.score }

def updatePlayerRedisData (s : EngineState) (playerId : PlayerId) (player : Player) :
    EngineState :=
  let stored := storedRecord playerId player
  let ok := s.fates.headD true
  let s1 := { s with fates := s.fates.tail }
  if ok then { s1 with redis := mapSet s1.redis playerId stored } else s1

/-- `calculateScores` (src/index.js lines 676-688): the pair of score
deltas for the two submitted choices, read from the CURRENT
`gameState.globalRewards`. -/
def calculateScores (s : EngineState) (choice1 choice2 : Choice) : Int × Int :=
  let r := s.globalRewards
  match choice1, choice2 with
  | .cooperate, .cooperate => (r.bothCooperate, r.bothCooperate)
  | .betray, .betray => (r.bothBetray, r.bothBetray)
  | .cooperate, .betray => (-r.cooperate, r.betray)
  | .betray, .cooperate => (r.betray, -r.cooperate)

/-- The reset applied to a terminated player (src/index.js lines
713-715): round counter zeroed, history cleared, pending choice
cleared, score kept. -/
def resetPlayer (player : Player) : Player :=
  { player with currentRound := 0, history := [], currentChoice := none }

/-- `checkGameEnd` (src/index.js lines 691-729).  Returns whether the
player's game ended, the updated state, and the emitted messages.  A
missing record counts as ended.  On termination the player is notified
(when a socket is bound) with the final score, the full history, the
round count and a reason, then `currentRound`, `history` and
`currentChoice` are reset while `score` is kept, the record is
persisted, and the id is removed from the waiting set and the match
table. -/
def checkGameEnd (s : EngineState) (playerId : PlayerId) :
    Bool × EngineState × List Emit :=
  match mapGet s.players playerId with
  | none => (true, s, [])
  | some player =>
    if player.score ≤ MIN_SCORE ∨ player.currentRound ≥ MAX_ROUNDS then
      let socketId := findSocketByPlayerId s playerId
      let emits : List Emit :=
        match socketId with
        | some sid =>
          [{ toSock := sid
             msg := .gameEnd player.score player.history player.currentRound
               (if player.score ≤ MIN_SCORE then "您的分数已耗尽" else "您已完成最大回合数") }]
        | none => []
      let player1 := resetPlayer player
      let s1 := { s with players := mapSet s.players playerId player1 }
      let s2 := updatePlayerRedisData s1 playerId player1
      let s3 := { s2 with
        waitingPlayers := setDelete s2.waitingPlayers playerId
        matchesMap := mapDelete s2.matchesMap playerId }
      (true, s3, emits)
    else
      (false, s, [])

/-- Insert an entry into a round-sorted list, before the first entry
whose round is not smaller — so an inserted entry precedes the equal
rounds that originally followed it, giving a stable sort. -/
def insertByRound (e : HistoryEntry) : List HistoryEntry → List HistoryEntry
  | [] => [e]
  | f :: t => if f.round < e.round then f :: insertByRound e t else e :: f :: t

/-- The in-place `history.sort((a, b) => a.round - b.round)` performed
on a matched opponent's record (src/index.js lines 542, 548); JS array
sort is stable, modelled by a stable insertion sort on the round
index. -/
def sortByRound : List HistoryEntry → List HistoryEntry
  | [] => []
  | e :: t => insertByRound e (sortByRound t)

/-- The `opponentHistory` payload `history.sort(...).slice(-100).reverse()`
(src/index.js lines 542, 548), applied to the already sorted history. -/
def recentHistoryView (l : List HistoryEntry) : List HistoryEntry :=
  ((l.drop (l.length - 100))).reverse

/-- `matchPlayers` (src/index.js lines 498-572).  Pops the two oldest
waiting ids; drops ids with no live record and returns; otherwise moves
the pair from the waiting set into the match table, clears both pending
choices, and either notifies both sides (both sockets live; the emitted
opponent history sorts each record's history in place) or rolls the pair
back to the waiting set and recurses.  The JS recursion can diverge when
every waiting player's socket is dead; the model cuts it with fuel,
returning the state unchanged at fuel 0. -/
def matchPlayers : Nat → EngineState → EngineState × List Emit
  | 0, s => (s, [])
  | fuel + 1, s =>
    match s.waitingPlayers with
    | player1Id :: player2Id :: _ =>
      match mapGet s.players player1Id, mapGet s.players player2Id with
      | some player1, some player2 =>
        let s1 := { s with
          waitingPlayers := setDelete (setDelete s.waitingPlayers player1Id) player2Id
          matchesMap := mapSet (mapSet s.matchesMap player1Id player2Id) player2Id player1Id }
        let player1a := { player1 with currentChoice := none }
        let player2a := { player2 with currentChoice := none }
        let s2 := { s1 with
          players := mapSet (mapSet s1.players player1Id player1a) player2Id player2a }
        let socket1Id := findSocketByPlayerId s2 player1Id
        let socket2Id := findSocketByPlayerId s2 player2Id
        match socket1Id, socket2Id with
        | some sock1, some sock2 =>
          let hist1 := sortByRound player1a.history
          let hist2 := sortByRound player2a.history
          let player1b := { player1a with history := hist1 }
          let player2b := { player2a with history := hist2 }
          let s3 := { s2 with
            players := mapSet (mapSet s2.players player1Id player1b) player2Id player2b }
          (s3,
            [{ toSock := sock1, msg := .matchFound player2Id player2a.name (recentHistoryView hist2) },
             { toSock := sock2, msg := .matchFound player1Id player1a.name (recentHistoryView hist1) }])
        | _, _ =>
          let s3 :=
            if socket1Id = none then
              { s2 with
                matchesMap := mapDelete (mapDelete s2.matchesMap player1Id) player2Id
                waitingPlayers := setAdd s2.waitingPlayers player2Id }
            else s2
          let s4 :=
            if socket2Id = none then
              { s3 with
                matchesMap := mapDelete (mapDelete s3.matchesMap player1Id) player2Id
                waitingPlayers := setAdd s3.waitingPlayers player1Id }
            else s3
          matchPlayers fuel s4
      | p1, p2 =>
        let s1 :=
          if p1 = none then
            { s with waitingPlayers := setDelete s.waitingPlayers player1Id }
          else s
        let s2 :=
          if p2 = none then
            { s1 with waitingPlayers := setDelete s1.waitingPlayers player2Id }
          else s1
        (s2, [])
    | _ => (s, [])

/-- The tail of a settlement (src/index.js lines 634-648): the pairing
is deleted from the match table in both directions, each side that did
not terminate and still has a live record is re-queued, and one
matchmaking pass runs. -/
def dissolveAndRequeue (s : EngineState) (player1Id player2Id : PlayerId)
    (player1Ended player2Ended : Bool) (fuel : Nat) : EngineState × List Emit :=
  let s6 := { s with
    matchesMap := mapDelete (mapDelete s.matchesMap player1Id) player2Id }
  let s7 :=
    if ¬ player1Ended ∧ (mapGet s6.players player1Id).isSome then
      { s6 with waitingPlayers := setAdd s6.waitingPlayers player1Id }
    else s6
  let s8 :=
    if ¬ player2Ended ∧ (mapGet s7.players player2Id).isSome then
      { s7 with waitingPlayers := setAdd s7.waitingPlayers player2Id }
    else s7
  matchPlayers fuel s8

/-- The provisional history entry pushed at submission time
(src/index.js lines 311-317). -/
def submittedEntry (s : EngineState) (player : Player) (c : Choice) (now : Nat) :
    HistoryEntry :=
  { round := player.currentRound, choice := c, score := player.score
    timestamp := now, rewards := s.globalRewards }

/-- The history ring-buffer bound (src/index.js lines 318-320): after a
push, the oldest entry is shifted off when the limit is exceeded. -/
def trimHistory (l : List HistoryEntry) : List HistoryEntry :=
  if l.length > HISTORY_LIMIT then l.drop 1 else l

/-- The settlement body of `checkMatchCompletion` (src/index.js lines
585-628): compute the deltas from the current payoff matrix, add them to
the scores, bump both round counters, persist both (fire-and-forget),
notify each connected side of its delta, new total, opponent choice and
name, then clear both pending choices. -/
def settleRound (s : EngineState) (player1Id player2Id : PlayerId)
    (player1 player2 : Player) (choice1 choice2 : Choice) :
    EngineState × List Emit :=
  let scores := calculateScores s choice1 choice2
  let player1a := { player1 with
    score := player1.score + scores.1, currentRound := player1.currentRound + 1 }
  let player2a := { player2 with
    score := player2.score + scores.2, currentRound := player2.currentRound + 1 }
  let s1 := { s with
    players := mapSet (mapSet s.players player1Id player1a) player2Id player2a }
  let s2 := updatePlayerRedisData s1 player1Id player1a
  let s3 := updatePlayerRedisData s2 player2Id player2a
  let socket1Id := findSocketByPlayerId s3 player1Id
  let socket2Id := findSocketByPlayerId s3 player2Id
  let emits1 : List Emit :=
    match socket1Id with
    | some sid =>
      [{ toSock := sid
         msg := .roundComplete scores.1 player1a.score choice2 player2.name }]
    | none => []
  let emits2 : List Emit :=
    match socket2Id with
    | some sid =>
      [{ toSock := sid
         msg := .roundComplete scores.2 player2a.score choice1 player1.name }]
    | none => []
  let player1b := { player1a with currentChoice := none }
  let player2b := { player2a with currentChoice := none }
  let s4 := { s3 with
    players := mapSet (mapSet s3.players player1Id player1b) player2Id player2b }
  (s4, emits1 ++ emits2)

/-- `checkMatchCompletion` (src/index.js lines 575-650).  When both
sides of the pairing have a pending choice: compute the deltas from the
current payoff matrix, add them to the scores, bump both round
counters, persist both (fire-and-forget), notify each connected side of
its delta, new total, the opponent's choice and name, clear both
pending choices, evaluate termination for both, dissolve the pairing,
re-queue each non-terminated side that still has a record, and run one
matchmaking pass. -/
def checkMatchCompletion (s : EngineState) (player1Id player2Id : PlayerId) (fuel : Nat) :
    EngineState × List Emit :=
  match mapGet s.players player1Id, mapGet s.players player2Id with
  | some player1, some player2 =>
    match player1.currentChoice, player2.currentChoice with
    | some choice1, some choice2 =>
      let r0 := settleRound s player1Id player2Id player1 player2 choice1 choice2
      let r1 := checkGameEnd r0.1 player1Id
      let r2 := checkGameEnd r1.2.1 player2Id
      let r3 := dissolveAndRequeue r2.2.1 player1Id player2Id r1.1 r2.1 fuel
      (r3.1, r0.2 ++ r1.2.2 ++ r2.2.2 ++ r3.2)
    | _, _ => (s, [])
  | _, _ => (s, [])

/-- The `login` handler (src/index.js lines 125-202).  Rejects names
longer than 20 characters.  Rehydrates the durable record when a known
id is supplied (applying the fresh name), otherwise creates a fresh
record under the supplied uuid.  Binds the socket, stores the record in
memory, persists it, and confirms; if the persistence write rejects,
the catch block reports an error instead and the confirmation is never
sent. -/
def loginHandler (s : EngineState) (sockId : SocketId) (dataPlayerId : Option PlayerId)
    (dataPlayerName : Option String) (freshId : PlayerId) : EngineState × List Emit :=
  let playerName := dataPlayerName.getD "匿名玩家"
  if playerName.length > 20 then
    (s, [{ toSock := sockId, msg := .errorMsg "玩家名称不能超过20个字符" }])
  else
    let existing :=
      match dataPlayerId with
      | some pid =>
        match mapGet s.redis pid with
        | some stored => some (pid, stored)
        | none => none
      | none => none
    let idData :=
      match existing with
      | some (pid, stored) =>
        (pid,
          ({ id := pid, name := playerName, score := stored.score,
             history := stored.history, currentRound := stored.currentRound,
             currentChoice := stored.currentChoice,
             totalGames := stored.totalGames } : Player),
          false)
      | none =>
        (freshId,
          ({ id := freshId, name := playerName, score := INITIAL_SCORE,
             history := [], currentRound := 0, currentChoice := none,
             totalGames := 0 } : Player),
          true)
    let playerId := idData.1
    let playerData := idData.2.1
    let isNewPlayer := idData.2.2
    let s1 := { s with
      socketToPlayerId := mapSet s.socketToPlayerId sockId playerId
      players := mapSet s.players playerId playerData }
    let ok := s1.fates.headD true
    let s2 := { s1 with fates := s1.fates.tail }
    if ok then
      ({ s2 with redis := mapSet s2.redis playerId playerData },
       [{ toSock := sockId, msg := .loginSuccess playerData isNewPlayer }])
    else
      (s2, [{ toSock := sockId, msg := .errorMsg "登录失败，请重试" }])

/-- The `joinGame` handler (src/index.js lines 205-278).  Requires a
bound login; recovers the record from Redis when it is not in memory;
rejects when already waiting or already matched; bumps `totalGames`,
persists (error swallowed), confirms the join with the record and the
current payoff matrix, enqueues, and runs one matchmaking pass. -/
def joinGameHandler (s : EngineState) (sockId : SocketId) (fuel : Nat) :
    EngineState × List Emit :=
  match mapGet s.socketToPlayerId sockId with
  | none => (s, [{ toSock := sockId, msg := .errorMsg "请先登录" }])
  | some playerId =>
    let recovered :=
      match mapGet s.players playerId with
      | some player => some (s, player)
      | none =>
        match mapGet s.redis playerId with
        | none => none
        | some stored =>
          let player : Player :=
            { id := playerId,
              name := if stored.name = "" then "匿名玩家" else stored.name,
              score := stored.score,
              history := stored.history, currentRound := stored.currentRound,
              currentChoice := stored.currentChoice, totalGames := stored.totalGames }
          some ({ s with players := mapSet s.players playerId player }, player)
    match recovered with
    | none => (s, [{ toSock := sockId, msg := .errorMsg "玩家数据丢失，请重新登录" }])
    | some (s1, player) =>
      if playerId ∈ s1.waitingPlayers then
        (s1, [{ toSock := sockId, msg := .errorMsg "您已在等待队列中" }])
      else if (mapGet s1.matchesMap playerId).isSome then
        (s1, [{ toSock := sockId, msg := .errorMsg "您已在游戏中，请先完成当前回合" }])
      else
        let player1 := { player with totalGames := player.totalGames + 1 }
        let s2 := { s1 with players := mapSet s1.players playerId player1 }
        let s3 := updatePlayerRedisData s2 playerId player1
        let emits0 : List Emit := [{ toSock := sockId, msg := .gameJoined player1 s3.globalRewards }]
        let s4 := { s3 with waitingPlayers := setAdd s3.waitingPlayers playerId }
        let r := matchPlayers fuel s4
        (r.1, emits0 ++ r.2)

/-- The `makeChoice` handler (src/index.js lines 281-333).  Validates
the choice string, requires a bound login, an in-memory record and a
current opponent; records the pending choice, appends a provisional
history entry carrying the current round index, the choice, the
pre-settlement score, a timestamp and a snapshot of the payoff matrix;
enforces the history bound by dropping the oldest entry; persists
(error swallowed); then checks the pairing for completion. -/
def makeChoiceHandler (s : EngineState) (sockId : SocketId) (choice : String)
    (now : Nat) (fuel : Nat) : EngineState × List Emit :=
  if choice ≠ "cooperate" ∧ choice ≠ "betray" then
    (s, [{ toSock := sockId, msg := .errorMsg "无效选择" }])
  else
    let c : Choice := if choice = "cooperate" then .cooperate else .betray
    match mapGet s.socketToPlayerId sockId with
    | none => (s, [{ toSock := sockId, msg := .errorMsg "请先登录" }])
    | some playerId =>
      match mapGet s.players playerId with
      | none => (s, [{ toSock := sockId, msg := .errorMsg "玩家未找到" }])
      | some player =>
        match findOpponent s playerId with
        | none => (s, [{ toSock := sockId, msg := .errorMsg "未找到对手" }])
        | some opponentId =>
          let entry := submittedEntry s player c now
          let newHistory := trimHistory (player.history ++ [entry])
          let player1 := { player with currentChoice := some c, history := newHistory }
          let s1 := { s with players := mapSet s.players playerId player1 }
          let s2 := updatePlayerRedisData s1 playerId player1
          checkMatchCompletion s2 playerId opponentId fuel

/-- The tail of the `disconnect` handler (src/index.js lines 368-383):
unbind the socket, remove the player from the waiting set and the match
table, flush the record to Redis (fire-and-forget, error swallowed) and
drop it from memory. -/
def disconnectCleanup (s : EngineState) (sockId : SocketId) (playerId : PlayerId) :
    EngineState :=
  let s3 := { s with
    socketToPlayerId := mapDelete s.socketToPlayerId sockId
    waitingPlayers := setDelete s.waitingPlayers playerId
    matchesMap := mapDelete s.matchesMap playerId }
  match mapGet s3.players playerId with
  | some player =>
    let s4 := updatePlayerRedisData s3 playerId player
    { s4 with players := mapDelete s4.players playerId }
  | none => s3

/-- The `disconnect` handler (src/index.js lines 336-387).  When the
socket is bound: if the player holds a pairing whose opponent record is
live, notify the opponent, dissolve the pairing, re-queue the opponent
and run a matchmaking pass; then unbind the socket, remove the player
from the waiting set and the match table, flush the record to Redis
(fire-and-forget) and drop it from memory. -/
def disconnectHandler (s : EngineState) (sockId : SocketId) (fuel : Nat) :
    EngineState × List Emit :=
  match mapGet s.socketToPlayerId sockId with
  | none => (s, [])
  | some playerId =>
    let step1 :=
      match findOpponent s playerId with
      | some opponentId =>
        match mapGet s.players opponentId with
        | some _ =>
          let emits : List Emit :=
            match findSocketByPlayerId s opponentId with
            | some oppSock =>
              [{ toSock := oppSock, msg := .opponentDisconnected "对手已断开连接，请等待新匹配" }]
            | none => []
          let s1 := { s with
            matchesMap := mapDelete (mapDelete s.matchesMap playerId) opponentId
            waitingPlayers := setAdd s.waitingPlayers opponentId }
          let r := matchPlayers fuel s1
          (r.1, emits ++ r.2)
        | none => (s, [])
      | none => (s, [])
    (disconnectCleanup step1.1 sockId playerId, step1.2)

/-- One externally triggered event of the engine: each constructor is
one Socket.IO handler invocation, quantified over its inputs (socket
id, payload, fresh uuid, timestamp, matchmaking fuel). -/
inductive Step : EngineState → EngineState → Prop
  | login (s : EngineState) (sockId : SocketId) (dataPlayerId : Option PlayerId)
      (dataPlayerName : Option String) (freshId : PlayerId) :
      Step s (loginHandler s sockId dataPlayerId dataPlayerName freshId).1
  | join (s : EngineState) (sockId : SocketId) (fuel : Nat) :
      Step s (joinGameHandler s sockId fuel).1
  | choice (s : EngineState) (sockId : SocketId) (choice : String) (now fuel : Nat) :
      Step s (makeChoiceHandler s sockId choice now fuel).1
  | disconnect (s : EngineState) (sockId : SocketId) (fuel : Nat) :
      Step s (disconnectHandler s sockId fuel).1

/-- States reachable from a fresh process by any sequence of handler
invocations. -/
inductive Reachable : EngineState → Prop
  | init (fates : List Bool) : Reachable (initState fates)
  | step {s t : EngineState} : Reachable s → Step s t → Reachable t


section MapCases

variable {α : Type} {β : Type} [DecidableEq α]

theorem mapGet_mapSet_cases {m : List (α × β)} {k k1 : α} {v w : β}
    (h : mapGet (mapSet m k v) k1 = some w) : w = v ∨ mapGet m k1 = some w := by
  by_cases hk : k1 = k
  · subst hk
    rw [mapGet_mapSet_self] at h
    exact Or.inl (Option.some.inj h).symm
  · rw [mapGet_mapSet_ne m k k1 v hk] at h
    exact Or.inr h

theorem mapGet_mapDelete_cases {m : List (α × β)} {k k1 : α} {w : β}
    (h : mapGet (mapDelete m k) k1 = some w) : mapGet m k1 = some w := by
  by_cases hk : k1 = k
  · subst hk
    rw [mapGet_mapDelete_self] at h
    exact absurd h (by simp)
  · rw [mapGet_mapDelete_ne m k k1 hk] at h
    exact h

theorem mapGet_doubleDelete_left (m : List (α × β)) (a b : α) :
    mapGet (mapDelete (mapDelete m a) b) a = none := by
  by_cases hab : a = b
  · subst hab
    rw [mapGet_mapDelete_self]
  · rw [mapGet_mapDelete_ne _ b a hab, mapGet_mapDelete_self]

theorem mapGet_doubleDelete_right (m : List (α × β)) (a b : α) :
    mapGet (mapDelete (mapDelete m a) b) b = none :=
  mapGet_mapDelete_self _ b

theorem mapGet_doubleDelete_ne (m : List (α × β)) (a b x : α) (hxa : x ≠ a)
    (hxb : x ≠ b) :
    mapGet (mapDelete (mapDelete m a) b) x = mapGet m x := by
  rw [mapGet_mapDelete_ne _ b x hxb, mapGet_mapDelete_ne _ a x hxa]

end MapCases

theorem updRedis_players (s : EngineState) (pid : PlayerId) (p : Player) :
    (updatePlayerRedisData s pid p).players = s.players := by
  unfold updatePlayerRedisData
  by_cases hf : s.fates.headD true = true
  · rw [if_pos hf]
  · rw [if_neg hf]

theorem updRedis_waiting (s : EngineState) (pid : PlayerId) (p : Player) :
    (updatePlayerRedisData s pid p).waitingPlayers = s.waitingPlayers := by
  unfold updatePlayerRedisData
  by_cases hf : s.fates.headD true = true
  · rw [if_pos hf]
  · rw [if_neg hf]

theorem updRedis_matches (s : EngineState) (pid : PlayerId) (p : Player) :
    (updatePlayerRedisData s pid p).matchesMap = s.matchesMap := by
  unfold updatePlayerRedisData
  by_cases hf : s.fates.headD true = true
  · rw [if_pos hf]
  · rw [if_neg hf]

theorem updRedis_sockets (s : EngineState) (pid : PlayerId) (p : Player) :
    (updatePlayerRedisData s pid p).socketToPlayerId = s.socketToPlayerId := by
  unfold updatePlayerRedisData
  by_cases hf : s.fates.headD true = true
  · rw [if_pos hf]
  · rw [if_neg hf]

theorem updRedis_rewards (s : EngineState) (pid : PlayerId) (p : Player) :
    (updatePlayerRedisData s pid p).globalRewards = s.globalRewards := by
  unfold updatePlayerRedisData
  by_cases hf : s.fates.headD true = true
  · rw [if_pos hf]
  · rw [if_neg hf]

theorem updRedis_redis_get {s : EngineState} {pid : PlayerId} {p : Player}
    {id : PlayerId} {q : Player}
    (h : mapGet (updatePlayerRedisData s pid p).redis id = some q) :
    q.history = p.history ∨ mapGet s.redis id = some q := by
  unfold updatePlayerRedisData at h
  by_cases hf : s.fates.headD true = true
  · rw [if_pos hf] at h
    rcases mapGet_mapSet_cases h with hq | hq
    · subst hq
      exact Or.inl rfl
    · exact Or.inr hq
  · rw [if_neg hf] at h
    exact Or.inr h

/-- Claim C3's invariant: no id is a member of the waiting set while it
is a key of the match table. -/
def MutexInv (s : EngineState) : Prop :=
  ∀ id, id ∈ s.waitingPlayers → mapGet s.matchesMap id = none

/-- Claim C8's invariant: every in-memory and every stored history is
bounded by `HISTORY_LIMIT`. -/
def HistInv (s : EngineState) : Prop :=
  (∀ id p, mapGet s.players id = some p → p.history.length ≤ HISTORY_LIMIT) ∧
  (∀ id p, mapGet s.redis id = some p → p.history.length ≤ HISTORY_LIMIT)

/-- The conjunction of the engine invariants maintained by every
handler. -/
def Inv (s : EngineState) : Prop := MutexInv s ∧ HistInv s

theorem inv_init (fates : List Bool) : Inv (initState fates) := by
  refine ⟨fun id hid => absurd hid (by simp [initState]), fun id p h => ?_, fun id p h => ?_⟩ <;>
    simp [initState, mapGet] at h

theorem updRedis_inv {s : EngineState} {pid : PlayerId} {p : Player}
    (hb : p.history.length ≤ HISTORY_LIMIT) (h : Inv s) :
    Inv (updatePlayerRedisData s pid p) := by
  obtain ⟨hmx, hmem, hred⟩ := h
  refine ⟨?_, ?_, ?_⟩
  · intro id hid
    rw [updRedis_waiting] at hid
    rw [updRedis_matches]
    exact hmx id hid
  · intro id q hq
    rw [updRedis_players] at hq
    exact hmem id q hq
  · intro id q hq
    rcases updRedis_redis_get hq with hq | hq
    · rw [hq]
      exact hb
    · exact hred id q hq


theorem updRedis_redis_fields (s : EngineState) (pid : PlayerId) (p : Player) :
    (updatePlayerRedisData s pid p).redis = s.redis ∨
    (updatePlayerRedisData s pid p).redis = mapSet s.redis pid (storedRecord pid p) := by
  unfold updatePlayerRedisData
  by_cases hf : s.fates.headD true = true
  · rw [if_pos hf]
    exact Or.inr rfl
  · rw [if_neg hf]
    exact Or.inl rfl

theorem checkGameEnd_fields (s : EngineState) (pid : PlayerId) :
    (checkGameEnd s pid).2.1 = s ∨
    ∃ player, mapGet s.players pid = some player ∧
      (checkGameEnd s pid).2.1.waitingPlayers = setDelete s.waitingPlayers pid ∧
      (checkGameEnd s pid).2.1.matchesMap = mapDelete s.matchesMap pid ∧
      (checkGameEnd s pid).2.1.players = mapSet s.players pid (resetPlayer player) ∧
      ((checkGameEnd s pid).2.1.redis = s.redis ∨
        (checkGameEnd s pid).2.1.redis =
          mapSet s.redis pid (storedRecord pid (resetPlayer player))) ∧
      (checkGameEnd s pid).2.1.socketToPlayerId = s.socketToPlayerId ∧
      (checkGameEnd s pid).2.1.globalRewards = s.globalRewards := by
  rcases hp : mapGet s.players pid with _ | player
  · simp only [checkGameEnd, hp]
    exact Or.inl trivial
  · by_cases hc : player.score ≤ MIN_SCORE ∨ player.currentRound ≥ MAX_ROUNDS
    · simp only [checkGameEnd, hp, if_pos hc]
      refine Or.inr ⟨player, rfl, ?_, ?_, ?_, ?_, ?_, ?_⟩
      · rw [updRedis_waiting]
      · rw [updRedis_matches]
      · rw [updRedis_players]
      · rcases updRedis_redis_fields
          { s with players := mapSet s.players pid (resetPlayer player) }
          pid (resetPlayer player) with hr | hr
      
        · exact Or.inl hr
        · exact Or.inr hr
      · rw [updRedis_sockets]
      · rw [updRedis_rewards]
    · simp only [checkGameEnd, hp, if_neg hc]
      exact Or.inl trivial

theorem checkGameEnd_inv {s : EngineState} (pid : PlayerId) (h : Inv s) :
    Inv (checkGameEnd s pid).2.1 := by
  obtain ⟨hmx, hmem, hred⟩ := h
  rcases checkGameEnd_fields s pid with heq | ⟨player, hp, hw, hm, hpl, hredis, _, _⟩
  · rw [heq]
    exact ⟨hmx, hmem, hred⟩
  · refine ⟨?_, ?_, ?_⟩
    · intro id hid
      rw [hw, mem_setDelete] at hid
      obtain ⟨hid, hne⟩ := hid
      rw [hm, mapGet_mapDelete_ne _ _ _ hne]
      exact hmx id hid
    · intro id q hq
      rw [hpl] at hq
      rcases mapGet_mapSet_cases hq with rfl | hq
      · simp [resetPlayer]
      · exact hmem id q hq
    · intro id q hq
      rcases hredis with hr | hr
      · rw [hr] at hq
        exact hred id q hq
      · rw [hr] at hq
        rcases mapGet_mapSet_cases hq with rfl | hq
        · simp [storedRecord, resetPlayer]
        · exact hred id q hq

/-- Scores of all surviving in-memory records are carried over from `s`
to `t`. -/
def ScoresPreserved (s t : EngineState) : Prop :=
  ∀ id q0, mapGet s.players id = some q0 →
    ∃ q, mapGet t.players id = some q ∧ q.score = q0.score

theorem scoresPreserved_refl (s : EngineState) : ScoresPreserved s s :=
  fun _ q0 h => ⟨q0, h, rfl⟩

theorem scoresPreserved_trans {s t u : EngineState}
    (h1 : ScoresPreserved s t) (h2 : ScoresPreserved t u) : ScoresPreserved s u := by
  intro id q0 h
  obtain ⟨q1, hq1, he1⟩ := h1 id q0 h
  obtain ⟨q2, hq2, he2⟩ := h2 id q1 hq1
  exact ⟨q2, hq2, he2.trans he1⟩

theorem checkGameEnd_scores (s : EngineState) (pid : PlayerId) :
    ScoresPreserved s (checkGameEnd s pid).2.1 := by
  intro id q0 h
  rcases checkGameEnd_fields s pid with heq | ⟨player, hp, _, _, hpl, _, _, _⟩
  · exact ⟨q0, by rw [heq]; exact h, rfl⟩
  · by_cases hid : id = pid
    · subst hid
      have hq0 : q0 = player := by
        rw [h] at hp
        exact Option.some.inj hp
      refine ⟨resetPlayer player, ?_, ?_⟩
      · rw [hpl, mapGet_mapSet_self]
      · rw [hq0]
        rfl
    · refine ⟨q0, ?_, rfl⟩
      rw [hpl, mapGet_mapSet_ne _ _ _ _ hid]
      exact h


theorem length_insertByRound (e : HistoryEntry) (l : List HistoryEntry) :
    (insertByRound e l).length = l.length + 1 := by
  induction l with
  | nil => rfl
  | cons f t ih =>
    by_cases h : f.round < e.round <;> simp [insertByRound, h, ih]

theorem length_sortByRound (l : List HistoryEntry) :
    (sortByRound l).length = l.length := by
  induction l with
  | nil => rfl
  | cons e t ih => simp [sortByRound, length_insertByRound, ih]

theorem mutex_pair_core {W : List PlayerId} {M : List (PlayerId × PlayerId)}
    (p1 p2 : PlayerId) (h : ∀ id, id ∈ W → mapGet M id = none) :
    ∀ id, id ∈ setDelete (setDelete W p1) p2 →
      mapGet (mapSet (mapSet M p1 p2) p2 p1) id = none := by
  intro id hid
  rw [mem_setDelete] at hid
  obtain ⟨hid, hne2⟩ := hid
  rw [mem_setDelete] at hid
  obtain ⟨hid, hne1⟩ := hid
  rw [mapGet_mapSet_ne _ _ _ _ hne2, mapGet_mapSet_ne _ _ _ _ hne1]
  exact h id hid

theorem mutex_doubleDelete {M : List (PlayerId × PlayerId)} {W : List PlayerId}
    (p1 p2 : PlayerId)
    (h : ∀ id, id ∈ W → id ≠ p1 → id ≠ p2 → mapGet M id = none) :
    ∀ x, x ∈ W ∨ x = p1 ∨ x = p2 →
      mapGet (mapDelete (mapDelete M p1) p2) x = none := by
  intro x hx
  by_cases h1 : x = p1
  · rw [h1]
    exact mapGet_doubleDelete_left M p1 p2
  · by_cases h2 : x = p2
    · rw [h2]
      exact mapGet_doubleDelete_right M p1 p2
    · rw [mapGet_doubleDelete_ne _ _ _ _ h1 h2]
      rcases hx with hx | hx | hx
      · exact h x hx h1 h2
      · exact absurd hx h1
      · exact absurd hx h2

theorem matchPlayers_inv :
    ∀ (fuel : Nat) (s : EngineState), Inv s → Inv (matchPlayers fuel s).1 := by
  intro fuel
  induction fuel with
  | zero =>
    intro s h
    exact h
  | succ fuel ih =>
    intro s h
    obtain ⟨hmx, hmem, hred⟩ := h
    rcases hw : s.waitingPlayers with _ | ⟨p1, t⟩
    · simp only [matchPlayers, hw]
      exact ⟨hmx, hmem, hred⟩
    rcases t with _ | ⟨p2, rest⟩
    · simp only [matchPlayers, hw]
      exact ⟨hmx, hmem, hred⟩
    have hmxW : ∀ id, id ∈ (p1 :: p2 :: rest) → mapGet s.matchesMap id = none :=
      fun id hid => hmx id (hw.symm ▸ hid)
    have hWmem : ∀ id, id ∈ setDelete (setDelete (p1 :: p2 :: rest) p1) p2 →
        id ∈ (p1 :: p2 :: rest) ∧ id ≠ p1 ∧ id ≠ p2 := by
      intro id hid
      rw [mem_setDelete] at hid
      obtain ⟨hid, hne2⟩ := hid
      rw [mem_setDelete] at hid
      exact ⟨hid.1, hid.2, hne2⟩
    have hpairW : ∀ id, id ∈ setDelete (setDelete (p1 :: p2 :: rest) p1) p2 →
        mapGet (mapSet (mapSet s.matchesMap p1 p2) p2 p1) id = none := by
      intro id hid
      obtain ⟨hidW, hne1, hne2⟩ := hWmem id hid
      rw [mapGet_mapSet_ne _ _ _ _ hne2, mapGet_mapSet_ne _ _ _ _ hne1]
      exact hmxW id hidW
    have hrollM : ∀ id, id ∈ setDelete (setDelete (p1 :: p2 :: rest) p1) p2 →
        id ≠ p1 → id ≠ p2 →
        mapGet (mapSet (mapSet s.matchesMap p1 p2) p2 p1) id = none :=
      fun id hid _ _ => hpairW id hid
    rcases hp1 : mapGet s.players p1 with _ | player1 <;>
      rcases hp2 : mapGet s.players p2 with _ | player2
    · -- both records missing: both dropped from the queue
      simp only [matchPlayers, hw, hp1, hp2, eq_self_iff_true, if_true, reduceCtorEq, if_false]
      refine ⟨?_, hmem, hred⟩
      intro id hid
      try dsimp only at hid ⊢
      rw [mem_setDelete] at hid
      obtain ⟨hid, _⟩ := hid
      rw [mem_setDelete] at hid
      exact hmxW id hid.1
    · -- first record missing
      simp only [matchPlayers, hw, hp1, hp2, eq_self_iff_true, if_true, reduceCtorEq, if_false]
      refine ⟨?_, hmem, hred⟩
      intro id hid
      try dsimp only at hid ⊢
      rw [mem_setDelete] at hid
      exact hmxW id hid.1
    · -- second record missing
      simp only [matchPlayers, hw, hp1, hp2, eq_self_iff_true, if_true, reduceCtorEq, if_false]
      refine ⟨?_, hmem, hred⟩
      intro id hid
      try dsimp only at hid ⊢
      rw [mem_setDelete] at hid
      exact hmxW id hid.1
    · -- both records live: pair them
      have hmemP : ∀ id q, mapGet (mapSet (mapSet s.players p1
          { player1 with currentChoice := none }) p2
          { player2 with currentChoice := none }) id = some q →
          q.history.length ≤ HISTORY_LIMIT := by
        intro id q hq
        rcases mapGet_mapSet_cases hq with rfl | hq
        · exact hmem p2 player2 hp2
        · rcases mapGet_mapSet_cases hq with rfl | hq
          · exact hmem p1 player1 hp1
          · exact hmem id q hq
      simp only [matchPlayers, hw, hp1, hp2, eq_self_iff_true, if_true, reduceCtorEq, if_false]
      split
      · -- both sockets live: matched state stands
        refine ⟨?_, ?_, hred⟩
        · intro id hid
          try dsimp only at hid ⊢
          exact hpairW id hid
        · intro id q hq
          try dsimp only at hq
          rcases mapGet_mapSet_cases hq with rfl | hq
          · dsimp only
            rw [length_sortByRound]
            exact hmem p2 player2 hp2
          · rcases mapGet_mapSet_cases hq with rfl | hq
            · dsimp only
              rw [length_sortByRound]
              exact hmem p1 player1 hp1
            · exact hmemP id q hq
      · -- a socket is dead: roll back and retry on the remaining fuel
        split
        · -- first socket dead
          split
          · -- second socket dead too
            apply ih
            refine ⟨?_, ?_, hred⟩
            · intro id hid
              try dsimp only at hid ⊢
              rw [mem_setAdd] at hid
              rcases hid with hid | hip1
              · rw [mem_setAdd] at hid
                rcases hid with hid | hip2
                · obtain ⟨_, hne1, hne2⟩ := hWmem id hid
                  rw [mapGet_doubleDelete_ne _ _ _ _ hne1 hne2]
                  exact mutex_doubleDelete p1 p2 hrollM id (Or.inl hid)
                · rw [hip2]
                  exact mutex_doubleDelete p1 p2
                    (fun x hx h1 h2 => by
                      rw [mapGet_doubleDelete_ne _ _ _ _ h1 h2]
                      exact hrollM x hx h1 h2)
                    p2 (Or.inr (Or.inr rfl))
              · rw [hip1]
                exact mutex_doubleDelete p1 p2
                  (fun x hx h1 h2 => by
                    rw [mapGet_doubleDelete_ne _ _ _ _ h1 h2]
                    exact hrollM x hx h1 h2)
                  p1 (Or.inr (Or.inl rfl))
            · intro id q hq
              try dsimp only at hq
              exact hmemP id q hq
          · -- only the first socket dead
            apply ih
            refine ⟨?_, ?_, hred⟩
            · intro id hid
              try dsimp only at hid ⊢
              rw [mem_setAdd] at hid
              rcases hid with hid | hip1
              · exact mutex_doubleDelete p1 p2 hrollM id (Or.inl hid)
              · rw [hip1]
                exact mutex_doubleDelete p1 p2 hrollM p1 (Or.inr (Or.inl rfl))
            · intro id q hq
              try dsimp only at hq
              exact hmemP id q hq
        · -- first socket live
          split
          · -- second socket dead
            apply ih
            refine ⟨?_, ?_, hred⟩
            · intro id hid
              try dsimp only at hid ⊢
              rw [mem_setAdd] at hid
              rcases hid with hid | hip2
              · exact mutex_doubleDelete p1 p2 hrollM id (Or.inl hid)
              · rw [hip2]
                exact mutex_doubleDelete p1 p2 hrollM p2 (Or.inr (Or.inr rfl))
            · intro id q hq
              try dsimp only at hq
              exact hmemP id q hq
          · -- both live after all: matched state stands in the retry
            apply ih
            refine ⟨?_, ?_, hred⟩
            · intro id hid
              try dsimp only at hid ⊢
              exact hpairW id hid
            · intro id q hq
              try dsimp only at hq
              exact hmemP id q hq


theorem mapGet_mapDelete_none {α β : Type} [DecidableEq α] {M : List (α × β)}
    {id k : α} (h : mapGet M id = none) : mapGet (mapDelete M k) id = none := by
  by_cases hk : id = k
  · rw [hk]
    exact mapGet_mapDelete_self M k
  · rw [mapGet_mapDelete_ne M k id hk]
    exact h

theorem inv_setWaitingAdd {t : EngineState} {x : PlayerId}
    (h : Inv t) (hx : mapGet t.matchesMap x = none) :
    Inv { t with waitingPlayers := setAdd t.waitingPlayers x } := by
  obtain ⟨hmx, hmem, hred⟩ := h
  refine ⟨?_, hmem, hred⟩
  intro id hid
  rw [mem_setAdd] at hid
  rcases hid with hid | hix
  · exact hmx id hid
  · rw [hix]
    exact hx

theorem inv_doubleDeleteMatches {t : EngineState} (a b : PlayerId) (h : Inv t) :
    Inv { t with matchesMap := mapDelete (mapDelete t.matchesMap a) b } := by
  obtain ⟨hmx, hmem, hred⟩ := h
  exact ⟨fun id hid => mapGet_mapDelete_none (mapGet_mapDelete_none (hmx id hid)),
    hmem, hred⟩

theorem inv_setPlayers2 {t : EngineState} {a b : PlayerId} {v1 v2 : Player}
    (h : Inv t) (h1 : v1.history.length ≤ HISTORY_LIMIT)
    (h2 : v2.history.length ≤ HISTORY_LIMIT) :
    Inv { t with players := mapSet (mapSet t.players a v1) b v2 } := by
  obtain ⟨hmx, hmem, hred⟩ := h
  refine ⟨hmx, ?_, hred⟩
  intro id q hq
  rcases mapGet_mapSet_cases hq with rfl | hq
  · exact h2
  · rcases mapGet_mapSet_cases hq with rfl | hq
    · exact h1
    · exact hmem id q hq

theorem inv_setPlayers1 {t : EngineState} {a : PlayerId} {v : Player}
    (h : Inv t) (h1 : v.history.length ≤ HISTORY_LIMIT) :
    Inv { t with players := mapSet t.players a v } := by
  obtain ⟨hmx, hmem, hred⟩ := h
  refine ⟨hmx, ?_, hred⟩
  intro id q hq
  rcases mapGet_mapSet_cases hq with rfl | hq
  · exact h1
  · exact hmem id q hq

theorem sp_doubleSet (v1 v2 : Player) {P : List (PlayerId × Player)}
    {p1 p2 : PlayerId} {player1 player2 : Player}
    (hp1 : mapGet P p1 = some player1) (hp2 : mapGet P p2 = some player2)
    (h1 : v1.score = player1.score) (h2 : v2.score = player2.score) :
    ∀ id q0, mapGet P id = some q0 →
      ∃ q, mapGet (mapSet (mapSet P p1 v1) p2 v2) id = some q ∧ q.score = q0.score := by
  intro id q0 h
  by_cases hi2 : id = p2
  · refine ⟨v2, by rw [hi2, mapGet_mapSet_self], ?_⟩
    rw [hi2] at h
    rw [h] at hp2
    rw [h2, Option.some.inj hp2]
  · by_cases hi1 : id = p1
    · refine ⟨v1, ?_, ?_⟩
      · rw [mapGet_mapSet_ne _ _ _ _ hi2, hi1, mapGet_mapSet_self]
      · rw [hi1] at h
        rw [h] at hp1
        rw [h1, Option.some.inj hp1]
    · refine ⟨q0, ?_, rfl⟩
      rw [mapGet_mapSet_ne _ _ _ _ hi2, mapGet_mapSet_ne _ _ _ _ hi1]
      exact h

theorem matchPlayers_scores :
    ∀ (fuel : Nat) (s : EngineState), ScoresPreserved s (matchPlayers fuel s).1 := by
  intro fuel
  induction fuel with
  | zero =>
    intro s
    exact scoresPreserved_refl s
  | succ fuel ih =>
    intro s
    rcases hw : s.waitingPlayers with _ | ⟨p1, t⟩
    · simp only [matchPlayers, hw]
      exact scoresPreserved_refl s
    rcases t with _ | ⟨p2, rest⟩
    · simp only [matchPlayers, hw]
      exact scoresPreserved_refl s
    rcases hp1 : mapGet s.players p1 with _ | player1 <;>
      rcases hp2 : mapGet s.players p2 with _ | player2
    · simp only [matchPlayers, hw, hp1, hp2, eq_self_iff_true, if_true, reduceCtorEq,
        if_false]
      intro id q0 h
      exact ⟨q0, h, rfl⟩
    · simp only [matchPlayers, hw, hp1, hp2, eq_self_iff_true, if_true, reduceCtorEq,
        if_false]
      intro id q0 h
      exact ⟨q0, h, rfl⟩
    · simp only [matchPlayers, hw, hp1, hp2, eq_self_iff_true, if_true, reduceCtorEq,
        if_false]
      intro id q0 h
      exact ⟨q0, h, rfl⟩
    · have hsp1 : ∀ id q0, mapGet s.players id = some q0 →
          ∃ q, mapGet (mapSet (mapSet s.players p1
            { player1 with currentChoice := none }) p2
            { player2 with currentChoice := none }) id = some q ∧
            q.score = q0.score :=
        sp_doubleSet { player1 with currentChoice := none }
          { player2 with currentChoice := none } hp1 hp2 rfl rfl
      simp only [matchPlayers, hw, hp1, hp2, eq_self_iff_true, if_true, reduceCtorEq,
        if_false]
      split
      · -- both sockets live: two further writes with sorted histories
        intro id q0 h
        obtain ⟨q1, hq1, he1⟩ := hsp1 id q0 h
        obtain ⟨w1, hw1, hew1⟩ := hsp1 p1 player1 hp1
        obtain ⟨w2, hw2, hew2⟩ := hsp1 p2 player2 hp2
        obtain ⟨q2, hq2, he2⟩ :=
          sp_doubleSet
            { player1 with currentChoice := none, history := sortByRound player1.history }
            { player2 with currentChoice := none, history := sortByRound player2.history }
            hw1 hw2 (by rw [hew1]) (by rw [hew2]) id q1 hq1
        exact ⟨q2, hq2, he2.trans he1⟩
      · -- a socket is dead: the rollbacks do not touch the records
        refine scoresPreserved_trans ?_ (ih _)
        split <;> split <;> exact fun id q0 h => hsp1 id q0 h


theorem trim_bound {l : List HistoryEntry} {e : HistoryEntry}
    (h : l.length ≤ HISTORY_LIMIT) :
    (trimHistory (l ++ [e])).length ≤ HISTORY_LIMIT := by
  unfold trimHistory
  by_cases hc : (l ++ [e]).length > HISTORY_LIMIT
  · rw [if_pos hc]
    simp only [List.length_drop, List.length_append, List.length_singleton]
    omega
  · rw [if_neg hc]
    simp only [List.length_append, List.length_singleton] at hc ⊢
    omega

theorem dissolveAndRequeue_inv {s : EngineState} (a b : PlayerId)
    (e1 e2 : Bool) (fuel : Nat) (h : Inv s) :
    Inv (dissolveAndRequeue s a b e1 e2 fuel).1 := by
  unfold dissolveAndRequeue
  apply matchPlayers_inv
  have h6 : Inv { s with matchesMap := mapDelete (mapDelete s.matchesMap a) b } :=
    inv_doubleDeleteMatches a b h
  split <;> split <;>
    repeat' (first
      | exact h6
      | exact mapGet_doubleDelete_left _ a b
      | exact mapGet_doubleDelete_right _ a b
      | apply inv_setWaitingAdd)

theorem dissolveAndRequeue_scores (s : EngineState) (a b : PlayerId)
    (e1 e2 : Bool) (fuel : Nat) :
    ScoresPreserved s (dissolveAndRequeue s a b e1 e2 fuel).1 := by
  unfold dissolveAndRequeue
  refine scoresPreserved_trans ?_ (matchPlayers_scores fuel _)
  split <;> split <;> exact fun id q0 h => ⟨q0, h, rfl⟩

theorem settleRound_inv {s : EngineState} (a b : PlayerId)
    {player1 player2 : Player} (c1 c2 : Choice)
    (hb1 : player1.history.length ≤ HISTORY_LIMIT)
    (hb2 : player2.history.length ≤ HISTORY_LIMIT)
    (h : Inv s) : Inv (settleRound s a b player1 player2 c1 c2).1 := by
  unfold settleRound
  apply inv_setPlayers2
  · apply updRedis_inv
    · exact hb2
    · apply updRedis_inv
      · exact hb1
      · exact inv_setPlayers2 h hb1 hb2
  · exact hb1
  · exact hb2

theorem checkMatchCompletion_inv {s : EngineState} (a b : PlayerId) (fuel : Nat)
    (h : Inv s) : Inv (checkMatchCompletion s a b fuel).1 := by
  rcases ha : mapGet s.players a with _ | player1
  · simp only [checkMatchCompletion, ha]
    exact h
  rcases hb : mapGet s.players b with _ | player2
  · simp only [checkMatchCompletion, ha, hb]
    exact h
  rcases hc1 : player1.currentChoice with _ | c1
  · simp only [checkMatchCompletion, ha, hb, hc1]
    exact h
  rcases hc2 : player2.currentChoice with _ | c2
  · simp only [checkMatchCompletion, ha, hb, hc1, hc2]
    exact h
  have hb1 : player1.history.length ≤ HISTORY_LIMIT := h.2.1 a player1 ha
  have hb2 : player2.history.length ≤ HISTORY_LIMIT := h.2.1 b player2 hb
  simp only [checkMatchCompletion, ha, hb, hc1, hc2]
  apply dissolveAndRequeue_inv
  apply checkGameEnd_inv
  apply checkGameEnd_inv
  exact settleRound_inv a b c1 c2 hb1 hb2 h


theorem inv_login_write {t : EngineState} {sockId : SocketId} {pid : PlayerId}
    {v : Player} (h : Inv t) (hb : v.history.length ≤ HISTORY_LIMIT) :
    Inv { t with
      socketToPlayerId := mapSet t.socketToPlayerId sockId pid
      players := mapSet t.players pid v
      redis := mapSet t.redis pid v
      fates := t.fates.tail } := by
  obtain ⟨hmx, hmem, hred⟩ := h
  refine ⟨hmx, ?_, ?_⟩ <;> intro id q hq
  · rcases mapGet_mapSet_cases hq with rfl | hq
    · exact hb
    · exact hmem id q hq
  · rcases mapGet_mapSet_cases hq with rfl | hq
    · exact hb
    · exact hred id q hq

theorem inv_login_nowrite {t : EngineState} {sockId : SocketId} {pid : PlayerId}
    {v : Player} (h : Inv t) (hb : v.history.length ≤ HISTORY_LIMIT) :
    Inv { t with
      socketToPlayerId := mapSet t.socketToPlayerId sockId pid
      players := mapSet t.players pid v
      fates := t.fates.tail } := by
  obtain ⟨hmx, hmem, hred⟩ := h
  refine ⟨hmx, ?_, hred⟩
  intro id q hq
  rcases mapGet_mapSet_cases hq with rfl | hq
  · exact hb
  · exact hmem id q hq

theorem loginHandler_inv {s : EngineState} (sockId : SocketId)
    (dataPlayerId : Option PlayerId) (dataPlayerName : Option String)
    (freshId : PlayerId) (h : Inv s) :
    Inv (loginHandler s sockId dataPlayerId dataPlayerName freshId).1 := by
  unfold loginHandler
  by_cases hlen : (dataPlayerName.getD "匿名玩家").length > 20
  · rw [if_pos hlen]
    exact h
  rw [if_neg hlen]
  rcases dataPlayerId with _ | pid
  · dsimp only
    split
    · apply inv_login_write h
      simp [HISTORY_LIMIT]
    · apply inv_login_nowrite h
      simp [HISTORY_LIMIT]
  · rcases hst : mapGet s.redis pid with _ | stored
    · simp only [hst]
      split
      · apply inv_login_write h
        simp [HISTORY_LIMIT]
      · apply inv_login_nowrite h
        simp [HISTORY_LIMIT]
    · simp only [hst]
      split
      · apply inv_login_write h
        exact h.2.2 pid stored hst
      · apply inv_login_nowrite h
        exact h.2.2 pid stored hst

theorem joinGameHandler_inv {s : EngineState} (sockId : SocketId) (fuel : Nat)
    (h : Inv s) : Inv (joinGameHandler s sockId fuel).1 := by
  rcases hsock : mapGet s.socketToPlayerId sockId with _ | pid
  · simp only [joinGameHandler, hsock]
    exact h
  rcases hpl : mapGet s.players pid with _ | player
  · rcases hst : mapGet s.redis pid with _ | stored
    · simp only [joinGameHandler, hsock, hpl, hst]
      exact h
    · have hb : stored.history.length ≤ HISTORY_LIMIT := h.2.2 pid stored hst
      have h1 : Inv { s with
          players := mapSet s.players pid
            { id := pid
              name := if stored.name = "" then "匿名玩家" else stored.name
              score := stored.score
              history := stored.history
              currentRound := stored.currentRound
              currentChoice := stored.currentChoice
              totalGames := stored.totalGames } } :=
        inv_setPlayers1 h hb
      simp only [joinGameHandler, hsock, hpl, hst]
      try dsimp only
      split
      · exact h1
      split
      · exact h1
      rename_i hnw hnm
      apply matchPlayers_inv
      apply inv_setWaitingAdd
      · apply updRedis_inv
        · exact hb
        · exact inv_setPlayers1 h1 hb
      · rw [updRedis_matches]
        dsimp only
        exact Option.not_isSome_iff_eq_none.mp hnm
  · have hb : player.history.length ≤ HISTORY_LIMIT := h.2.1 pid player hpl
    simp only [joinGameHandler, hsock, hpl]
    try dsimp only
    split
    · exact h
    split
    · exact h
    rename_i hnw hnm
    apply matchPlayers_inv
    apply inv_setWaitingAdd
    · apply updRedis_inv
      · exact hb
      · exact inv_setPlayers1 h hb
    · rw [updRedis_matches]
      dsimp only
      exact Option.not_isSome_iff_eq_none.mp hnm

theorem makeChoiceHandler_inv {s : EngineState} (sockId : SocketId)
    (choice : String) (now fuel : Nat) (h : Inv s) :
    Inv (makeChoiceHandler s sockId choice now fuel).1 := by
  unfold makeChoiceHandler
  by_cases hv : choice ≠ "cooperate" ∧ choice ≠ "betray"
  · rw [if_pos hv]
    exact h
  rw [if_neg hv]
  rcases hsock : mapGet s.socketToPlayerId sockId with _ | pid
  · simp only [hsock]
    exact h
  simp only [hsock]
  rcases hpl : mapGet s.players pid with _ | player
  · simp only [hpl]
    exact h
  simp only [hpl]
  rcases hop : findOpponent s pid with _ | opp
  · simp only [hop]
    exact h
  simp only [hop]
  apply checkMatchCompletion_inv
  apply updRedis_inv
  · exact trim_bound (h.2.1 pid player hpl)
  · exact inv_setPlayers1 h (trim_bound (h.2.1 pid player hpl))

theorem inv_disc_requeue {t : EngineState} (a b : PlayerId) (h : Inv t) :
    Inv { t with
      matchesMap := mapDelete (mapDelete t.matchesMap a) b
      waitingPlayers := setAdd t.waitingPlayers b } := by
  obtain ⟨hmx, hmem, hred⟩ := h
  refine ⟨?_, hmem, hred⟩
  intro id hid
  rw [mem_setAdd] at hid
  rcases hid with hid | hib
  · exact mapGet_mapDelete_none (mapGet_mapDelete_none (hmx id hid))
  · rw [hib]
    exact mapGet_doubleDelete_right _ a b

theorem inv_deletePlayers {t : EngineState} (a : PlayerId) (h : Inv t) :
    Inv { t with players := mapDelete t.players a } := by
  obtain ⟨hmx, hmem, hred⟩ := h
  refine ⟨hmx, ?_, hred⟩
  intro id q hq
  exact hmem id q (mapGet_mapDelete_cases hq)

theorem inv_disc_cleanup {t : EngineState} (sockId : SocketId) (pid : PlayerId)
    (h : Inv t) :
    Inv { t with
      socketToPlayerId := mapDelete t.socketToPlayerId sockId
      waitingPlayers := setDelete t.waitingPlayers pid
      matchesMap := mapDelete t.matchesMap pid } := by
  obtain ⟨hmx, hmem, hred⟩ := h
  refine ⟨?_, hmem, hred⟩
  intro id hid
  rw [mem_setDelete] at hid
  exact mapGet_mapDelete_none (hmx id hid.1)

theorem disconnectCleanup_inv {t : EngineState} (sockId : SocketId)
    (pid : PlayerId) (h : Inv t) : Inv (disconnectCleanup t sockId pid) := by
  simp only [disconnectCleanup]
  have h3 : Inv { t with
      socketToPlayerId := mapDelete t.socketToPlayerId sockId
      waitingPlayers := setDelete t.waitingPlayers pid
      matchesMap := mapDelete t.matchesMap pid } := inv_disc_cleanup sockId pid h
  split
  · rename_i player heq
    apply inv_deletePlayers
    apply updRedis_inv
    · exact h3.2.1 pid player heq
    · exact h3
  · exact h3

theorem disconnectHandler_inv {s : EngineState} (sockId : SocketId) (fuel : Nat)
    (h : Inv s) : Inv (disconnectHandler s sockId fuel).1 := by
  rcases hsock : mapGet s.socketToPlayerId sockId with _ | pid
  · simp only [disconnectHandler, hsock]
    exact h
  rcases hop : findOpponent s pid with _ | opp
  · simp only [disconnectHandler, hsock, hop]
    exact disconnectCleanup_inv sockId pid h
  rcases hopp : mapGet s.players opp with _ | opponent
  · simp only [disconnectHandler, hsock, hop, hopp]
    exact disconnectCleanup_inv sockId pid h
  · simp only [disconnectHandler, hsock, hop, hopp]
    apply disconnectCleanup_inv
    apply matchPlayers_inv
    exact inv_disc_requeue pid opp h

theorem step_inv {s t : EngineState} (h : Inv s) (hst : Step s t) : Inv t := by
  cases hst with
  | login sockId dataPlayerId dataPlayerName freshId =>
    exact loginHandler_inv sockId dataPlayerId dataPlayerName freshId h
  | join sockId fuel => exact joinGameHandler_inv sockId fuel h
  | choice sockId choice now fuel => exact makeChoiceHandler_inv sockId choice now fuel h
  | disconnect sockId fuel => exact disconnectHandler_inv sockId fuel h

theorem reachable_inv {s : EngineState} (h : Reachable s) : Inv s := by
  induction h with
  | init fates => exact inv_init fates
  | step _ hst ih => exact step_inv ih hst


/-- Modelled from the spec (§8 Payoff correctness): the payoff table as
the spec words it — `(cooperate,cooperate) → (+bothCooperate,
+bothCooperate)`, `(betray,betray) → (+bothBetray, +bothBetray)`,
`(cooperate,betray) → (-cooperate, +betray)`, `(betray,cooperate) →
(+betray, -cooperate)`. -/
def specPayoff (r : Rewards) : Choice → Choice → Int × Int
  | .cooperate, .cooperate => (r.bothCooperate, r.bothCooperate)
  | .betray, .betray => (r.bothBetray, r.bothBetray)
  | .cooperate, .betray => (-r.cooperate, r.betray)
  | .betray, .cooperate => (r.betray, -r.cooperate)

theorem settleRound_get_a {s : EngineState} {a b : PlayerId}
    (player1 player2 : Player) (c1 c2 : Choice) (hne : a ≠ b) :
    mapGet (settleRound s a b player1 player2 c1 c2).1.players a =
      some { player1 with
        score := player1.score + (calculateScores s c1 c2).1
        currentRound := player1.currentRound + 1
        currentChoice := none } := by
  unfold settleRound
  dsimp only
  rw [mapGet_mapSet_ne _ _ _ _ hne, mapGet_mapSet_self]

theorem settleRound_get_b {s : EngineState} {a b : PlayerId}
    (player1 player2 : Player) (c1 c2 : Choice) :
    mapGet (settleRound s a b player1 player2 c1 c2).1.players b =
      some { player2 with
        score := player2.score + (calculateScores s c1 c2).2
        currentRound := player2.currentRound + 1
        currentChoice := none } := by
  unfold settleRound
  dsimp only
  rw [mapGet_mapSet_self]

theorem findSocket_updRedis (s : EngineState) (pid : PlayerId) (p : Player)
    (x : PlayerId) :
    findSocketByPlayerId (updatePlayerRedisData s pid p) x =
      findSocketByPlayerId s x := by
  unfold findSocketByPlayerId
  rw [updRedis_sockets]

theorem settleRound_emits {s : EngineState} {a b : PlayerId}
    (player1 player2 : Player) (c1 c2 : Choice) {sock1 sock2 : SocketId}
    (hs1 : findSocketByPlayerId s a = some sock1)
    (hs2 : findSocketByPlayerId s b = some sock2) :
    (settleRound s a b player1 player2 c1 c2).2 =
      [{ toSock := sock1
         msg := .roundComplete (calculateScores s c1 c2).1
           (player1.score + (calculateScores s c1 c2).1) c2 player2.name },
       { toSock := sock2
         msg := .roundComplete (calculateScores s c1 c2).2
           (player2.score + (calculateScores s c1 c2).2) c1 player1.name }] := by
  unfold settleRound
  dsimp only
  simp only [findSocket_updRedis]
  have hsp : ∀ x, findSocketByPlayerId { s with
      players := mapSet (mapSet s.players a
        { player1 with
          score := player1.score + (calculateScores s c1 c2).1
          currentRound := player1.currentRound + 1 }) b
        { player2 with
          score := player2.score + (calculateScores s c1 c2).2
          currentRound := player2.currentRound + 1 } } x =
      findSocketByPlayerId s x := fun _ => rfl
  simp only [hsp, hs1, hs2]
  rfl

/-- C1: for every pair of submitted choices the settlement deltas follow
the payoff table — `(cooperate,cooperate)` gives `+bothCooperate` to
each side, `(betray,betray)` gives `+bothBetray` to each side,
`(cooperate,betray)` gives `-cooperate` to the cooperator and `+betray`
to the defector, symmetrically for `(betray,cooperate)` — and after the
settlement each side's in-memory total equals its prior score plus its
delta. -/
theorem C1_payoff_correctness {s : EngineState} {a b : PlayerId}
    {player1 player2 : Player} {c1 c2 : Choice} (fuel : Nat)
    (ha : mapGet s.players a = some player1)
    (hb : mapGet s.players b = some player2)
    (hc1 : player1.currentChoice = some c1)
    (hc2 : player2.currentChoice = some c2)
    (hne : a ≠ b) :
    calculateScores s c1 c2 = specPayoff s.globalRewards c1 c2 ∧
    (∃ q1, mapGet (checkMatchCompletion s a b fuel).1.players a = some q1 ∧
      q1.score = player1.score + (specPayoff s.globalRewards c1 c2).1) ∧
    (∃ q2, mapGet (checkMatchCompletion s a b fuel).1.players b = some q2 ∧
      q2.score = player2.score + (specPayoff s.globalRewards c1 c2).2) := by
  have hcalc : calculateScores s c1 c2 = specPayoff s.globalRewards c1 c2 := by
    cases c1 <;> cases c2 <;> rfl
  have hSP : ScoresPreserved (settleRound s a b player1 player2 c1 c2).1
      (dissolveAndRequeue (checkGameEnd (checkGameEnd
          (settleRound s a b player1 player2 c1 c2).1 a).2.1 b).2.1 a b
        (checkGameEnd (settleRound s a b player1 player2 c1 c2).1 a).1
        (checkGameEnd (checkGameEnd
          (settleRound s a b player1 player2 c1 c2).1 a).2.1 b).1 fuel).1 :=
    scoresPreserved_trans (scoresPreserved_trans
      (checkGameEnd_scores _ a) (checkGameEnd_scores _ b))
      (dissolveAndRequeue_scores _ a b _ _ fuel)
  refine ⟨hcalc, ?_, ?_⟩
  · obtain ⟨q1, hq1, he1⟩ := hSP a _ (settleRound_get_a player1 player2 c1 c2 hne)
    refine ⟨q1, ?_, ?_⟩
    · simp only [checkMatchCompletion, ha, hb, hc1, hc2]
      exact hq1
    · refine he1.trans ?_
      dsimp only
      rw [hcalc]
  · obtain ⟨q2, hq2, he2⟩ := hSP b _ (settleRound_get_b player1 player2 c1 c2)
    refine ⟨q2, ?_, ?_⟩
    · simp only [checkMatchCompletion, ha, hb, hc1, hc2]
      exact hq2
    · refine he2.trans ?_
      dsimp only
      rw [hcalc]


/-- C2: a participant with a live record terminates exactly when
`score ≤ MIN_SCORE` or `currentRound ≥ MAX_ROUNDS`; on termination the
bound socket is notified with the final score, the full history, the
round count and a reason distinguishing score exhaustion from the round
limit, then `currentRound` is reset to 0, `history` is cleared,
`currentChoice` is cleared, the id is removed from the waiting queue and
the match table, the reset record is persisted (when the write goes
through), and the in-memory score is unchanged. -/
theorem C2_termination {s : EngineState} {pid : PlayerId} {player : Player}
    {sockId : SocketId}
    (hp : mapGet s.players pid = some player)
    (hsock : findSocketByPlayerId s pid = some sockId)
    (hfate : s.fates.headD true = true) :
    ((checkGameEnd s pid).1 = true ↔
      (player.score ≤ MIN_SCORE ∨ player.currentRound ≥ MAX_ROUNDS)) ∧
    ((player.score ≤ MIN_SCORE ∨ player.currentRound ≥ MAX_ROUNDS) →
      ((checkGameEnd s pid).2.2 =
        [{ toSock := sockId
           msg := .gameEnd player.score player.history player.currentRound
             (if player.score ≤ MIN_SCORE then "您的分数已耗尽"
              else "您已完成最大回合数") }] ∧
       mapGet (checkGameEnd s pid).2.1.players pid = some (resetPlayer player) ∧
       (resetPlayer player).currentRound = 0 ∧
       (resetPlayer player).history = [] ∧
       (resetPlayer player).currentChoice = none ∧
       (resetPlayer player).score = player.score ∧
       mapGet (checkGameEnd s pid).2.1.redis pid =
         some (storedRecord pid (resetPlayer player)) ∧
       pid ∉ (checkGameEnd s pid).2.1.waitingPlayers ∧
       mapGet (checkGameEnd s pid).2.1.matchesMap pid = none)) := by
  by_cases hc : player.score ≤ MIN_SCORE ∨ player.currentRound ≥ MAX_ROUNDS
  · constructor
    · simp only [checkGameEnd, hp, if_pos hc]
      exact ⟨fun _ => hc, fun _ => trivial⟩
    · intro _
      simp only [checkGameEnd, hp, if_pos hc, hsock]
      refine ⟨by trivial, ?_, by trivial, by trivial, by trivial, by trivial, ?_, ?_, ?_⟩
      · rw [updRedis_players]
        exact mapGet_mapSet_self _ _ _
      · unfold updatePlayerRedisData
        rw [if_pos ?hf]
        case hf =>
          dsimp only
          exact hfate
        dsimp only
        exact mapGet_mapSet_self _ _ _
      · rw [updRedis_waiting]
        dsimp only
        rw [mem_setDelete]
        rintro ⟨_, hne⟩
        exact hne rfl
      · rw [updRedis_matches]
        dsimp only
        exact mapGet_mapDelete_self _ _
  · constructor
    · simp only [checkGameEnd, hp, if_neg hc]
      constructor
      · intro h1
        exact absurd h1 (by simp)
      · intro h1
        exact absurd h1 hc
    · intro h1
      exact absurd h1 hc


theorem makeChoice_pending {s : EngineState} {sockId : SocketId}
    {choiceStr : String} {now fuel : Nat} {playerId opponentId : PlayerId}
    {player opponent : Player} {c : Choice}
    (hvalid : (choiceStr = "cooperate" ∧ c = .cooperate) ∨
              (choiceStr = "betray" ∧ c = .betray))
    (hsock : mapGet s.socketToPlayerId sockId = some playerId)
    (hpl : mapGet s.players playerId = some player)
    (hop : mapGet s.matchesMap playerId = some opponentId)
    (hoppl : mapGet s.players opponentId = some opponent)
    (hopch : opponent.currentChoice = none)
    (hne : opponentId ≠ playerId) :
    (makeChoiceHandler s sockId choiceStr now fuel).2 = [] ∧
    (makeChoiceHandler s sockId choiceStr now fuel).1.players =
      mapSet s.players playerId
        { player with
          currentChoice := some c
          history := trimHistory (player.history ++ [submittedEntry s player c now]) } := by
  rcases hvalid with ⟨hs1, hc1⟩ | ⟨hs1, hc1⟩ <;> subst hs1 <;> subst hc1 <;>
  · simp only [makeChoiceHandler, findOpponent, hsock, hpl, hop, hoppl,
      checkMatchCompletion, updRedis_players, mapGet_mapSet_self,
      mapGet_mapSet_ne _ _ _ _ hne, hopch, String.reduceEq, ne_eq, not_true,
      not_false_iff, false_and, and_false, true_and, and_true, if_false,
      if_true, eq_self_iff_true, not_true_eq_false, not_false_eq_true]


/-- C3: in every reachable engine state, no participant id is
simultaneously a member of the waiting queue and a key of the match
table. -/
theorem C3_queue_pairing_exclusive {s : EngineState} (h : Reachable s)
    (id : PlayerId) :
    ¬ (id ∈ s.waitingPlayers ∧ (mapGet s.matchesMap id).isSome) := by
  rintro ⟨hw, hm⟩
  rw [(reachable_inv h).1 id hw] at hm
  simp at hm

/-- C10: a second choice submission by a participant whose opponent has
not yet submitted is accepted without error: it overwrites the pending
choice with the new value and appends a further provisional history
entry bearing the same round index, so one round can contribute more
than one history entry. -/
theorem C10_double_submission {s : EngineState} {sockId : SocketId}
    {choiceStr : String} {now fuel : Nat} {playerId opponentId : PlayerId}
    {player opponent : Player} {c c0 : Choice} (e0 : HistoryEntry)
    (hvalid : (choiceStr = "cooperate" ∧ c = .cooperate) ∨
              (choiceStr = "betray" ∧ c = .betray))
    (hsock : mapGet s.socketToPlayerId sockId = some playerId)
    (hpl : mapGet s.players playerId = some player)
    (hop : mapGet s.matchesMap playerId = some opponentId)
    (hoppl : mapGet s.players opponentId = some opponent)
    (hopch : opponent.currentChoice = none)
    (hne : opponentId ≠ playerId)
    (hprior : player.currentChoice = some c0)
    (he0 : e0 ∈ player.history) (hr0 : e0.round = player.currentRound)
    (hlen : player.history.length < HISTORY_LIMIT) :
    (makeChoiceHandler s sockId choiceStr now fuel).2 = [] ∧
    ∃ q, mapGet (makeChoiceHandler s sockId choiceStr now fuel).1.players
        playerId = some q ∧
      q.currentChoice = some c ∧
      q.history = player.history ++ [submittedEntry s player c now] ∧
      (submittedEntry s player c now).round = player.currentRound ∧
      2 ≤ (q.history.filter (fun e => e.round = player.currentRound)).length := by
  obtain ⟨hemits, hplayers⟩ := makeChoice_pending hvalid hsock hpl hop hoppl hopch hne
  have hnotrim : trimHistory (player.history ++ [submittedEntry s player c now]) =
      player.history ++ [submittedEntry s player c now] := by
    unfold trimHistory
    rw [if_neg]
    simp only [List.length_append, List.length_singleton, gt_iff_lt, not_lt]
    omega
  refine ⟨hemits, ?_⟩
  rw [hplayers]
  refine ⟨_, mapGet_mapSet_self _ _ _, rfl, ?_, rfl, ?_⟩
  · dsimp only
    exact hnotrim
  · dsimp only
    rw [hnotrim, List.filter_append]
    have hentry : List.filter (fun e => decide (e.round = player.currentRound))
        [submittedEntry s player c now] = [submittedEntry s player c now] := by
      simp [submittedEntry]
    have he0f : e0 ∈ List.filter (fun e => decide (e.round = player.currentRound))
        player.history :=
      List.mem_filter.mpr ⟨he0, by simp [hr0]⟩
    have h1 : 0 < (List.filter (fun e => decide (e.round = player.currentRound))
        player.history).length :=
      List.length_pos.mpr (List.ne_nil_of_mem he0f)
    rw [List.length_append, hentry]
    simp only [List.length_singleton]
    omega

/-- C8: in every reachable engine state every in-memory history has
length at most `HISTORY_LIMIT`, and a choice submission by a participant
whose history already sits at the limit drops the oldest entry while
appending the new provisional entry, keeping the length at the limit. -/
theorem C8_history_bounded :
    (∀ s : EngineState, Reachable s → ∀ id p, mapGet s.players id = some p →
      p.history.length ≤ HISTORY_LIMIT) ∧
    (∀ (s : EngineState) (sockId : SocketId) (choiceStr : String)
       (now fuel : Nat) (playerId opponentId : PlayerId)
       (player opponent : Player) (c : Choice),
      ((choiceStr = "cooperate" ∧ c = .cooperate) ∨
        (choiceStr = "betray" ∧ c = .betray)) →
      mapGet s.socketToPlayerId sockId = some playerId →
      mapGet s.players playerId = some player →
      mapGet s.matchesMap playerId = some opponentId →
      mapGet s.players opponentId = some opponent →
      opponent.currentChoice = none →
      opponentId ≠ playerId →
      player.history.length = HISTORY_LIMIT →
      ∃ q, mapGet (makeChoiceHandler s sockId choiceStr now fuel).1.players
          playerId = some q ∧
        q.history = player.history.drop 1 ++ [submittedEntry s player c now] ∧
        q.history.length = HISTORY_LIMIT) := by
  constructor
  · intro s hr id p hp
    exact (reachable_inv hr).2.1 id p hp
  · intro s sockId choiceStr now fuel playerId opponentId player opponent c
      hvalid hsock hpl hop hoppl hopch hne hlen
    obtain ⟨_, hplayers⟩ := makeChoice_pending hvalid hsock hpl hop hoppl hopch hne
    have hlen2 : player.history.length = 100 := hlen
    have htrim : trimHistory (player.history ++ [submittedEntry s player c now]) =
        player.history.drop 1 ++ [submittedEntry s player c now] := by
      unfold trimHistory
      rw [if_pos]
      · rw [List.drop_append_of_le_length (by omega)]
      · simp only [List.length_append, List.length_singleton, gt_iff_lt]
        show HISTORY_LIMIT < player.history.length + 1
        unfold HISTORY_LIMIT
        omega
    rw [hplayers]
    refine ⟨_, mapGet_mapSet_self _ _ _, ?_, ?_⟩
    · dsimp only
      exact htrim
    · dsimp only
      rw [htrim]
      simp only [List.length_append, List.length_drop, List.length_singleton]
      unfold HISTORY_LIMIT
      omega


/-- A concrete run: Alice and Bob log in, join, and are matched. -/
def demoState : EngineState :=
  (joinGameHandler (joinGameHandler (loginHandler (loginHandler (initState [])
    "sockA" none (some "Alice") "idA").1 "sockB" none (some "Bob") "idB").1
    "sockA" 10).1 "sockB" 10).1

theorem demoState_reachable : Reachable demoState :=
  Reachable.step (Reachable.step (Reachable.step (Reachable.step
    (Reachable.init []) (Step.login _ "sockA" none (some "Alice") "idA"))
    (Step.login _ "sockB" none (some "Bob") "idB"))
    (Step.join _ "sockA" 10)) (Step.join _ "sockB" 10)

/-- The in-memory record of Alice in `demoState`. -/
def demoAlice : Player :=
  { id := "idA", name := "Alice", score := 100, history := [], currentRound := 0
    currentChoice := none, totalGames := 1 }

/-- The in-memory record of Bob in `demoState`. -/
def demoBob : Player :=
  { id := "idB", name := "Bob", score := 100, history := [], currentRound := 0
    currentChoice := none, totalGames := 1 }

/-- Alice and Bob paired with both choices submitted: Alice cooperates,
Bob betrays. -/
def bothChosenState : EngineState :=
  { players :=
      [("idA", { demoAlice with currentChoice := some .cooperate }),
       ("idB", { demoBob with currentChoice := some .betray })]
    waitingPlayers := []
    matchesMap := [("idA", "idB"), ("idB", "idA")]
    socketToPlayerId := [("sockA", "idA"), ("sockB", "idB")]
    globalRewards := initialRewards
    redis := []
    fates := [] }

theorem C1_payoff_correctness_witness :
    calculateScores bothChosenState .cooperate .betray =
      specPayoff bothChosenState.globalRewards .cooperate .betray ∧
    (∃ q1, mapGet (checkMatchCompletion bothChosenState "idA" "idB" 10).1.players
        "idA" = some q1 ∧
      q1.score = (100 : Int) +
        (specPayoff bothChosenState.globalRewards .cooperate .betray).1) ∧
    (∃ q2, mapGet (checkMatchCompletion bothChosenState "idA" "idB" 10).1.players
        "idB" = some q2 ∧
      q2.score = (100 : Int) +
        (specPayoff bothChosenState.globalRewards .cooperate .betray).2) :=
  C1_payoff_correctness 10
    (show mapGet bothChosenState.players "idA" =
      some { demoAlice with currentChoice := some Choice.cooperate } from rfl)
    (show mapGet bothChosenState.players "idB" =
      some { demoBob with currentChoice := some Choice.betray } from rfl)
    rfl rfl (by decide)

/-- A participant whose score is exactly `MIN_SCORE`, with a bound
socket. -/
def exhaustedAlice : Player := { demoAlice with score := 0, currentRound := 3 }

def exhaustedState : EngineState :=
  { players := [("idA", exhaustedAlice)]
    waitingPlayers := []
    matchesMap := []
    socketToPlayerId := [("sockA", "idA")]
    globalRewards := initialRewards
    redis := []
    fates := [] }

theorem C2_termination_witness :
    ((checkGameEnd exhaustedState "idA").1 = true ↔
      (exhaustedAlice.score ≤ MIN_SCORE ∨
        exhaustedAlice.currentRound ≥ MAX_ROUNDS)) ∧
    ((exhaustedAlice.score ≤ MIN_SCORE ∨
        exhaustedAlice.currentRound ≥ MAX_ROUNDS) →
      ((checkGameEnd exhaustedState "idA").2.2 =
        [{ toSock := "sockA"
           msg := .gameEnd exhaustedAlice.score exhaustedAlice.history
             exhaustedAlice.currentRound
             (if exhaustedAlice.score ≤ MIN_SCORE then "您的分数已耗尽"
              else "您已完成最大回合数") }] ∧
       mapGet (checkGameEnd exhaustedState "idA").2.1.players "idA" =
         some (resetPlayer exhaustedAlice) ∧
       (resetPlayer exhaustedAlice).currentRound = 0 ∧
       (resetPlayer exhaustedAlice).history = [] ∧
       (resetPlayer exhaustedAlice).currentChoice = none ∧
       (resetPlayer exhaustedAlice).score = exhaustedAlice.score ∧
       mapGet (checkGameEnd exhaustedState "idA").2.1.redis "idA" =
         some (storedRecord "idA" (resetPlayer exhaustedAlice)) ∧
       "idA" ∉ (checkGameEnd exhaustedState "idA").2.1.waitingPlayers ∧
       mapGet (checkGameEnd exhaustedState "idA").2.1.matchesMap "idA" = none)) :=
  C2_termination rfl rfl rfl

theorem C3_queue_pairing_exclusive_witness :
    mapGet demoState.matchesMap "idA" = some "idB" ∧
    ¬ ("idA" ∈ demoState.waitingPlayers ∧
        (mapGet demoState.matchesMap "idA").isSome) :=
  ⟨by decide, C3_queue_pairing_exclusive demoState_reachable "idA"⟩

/-- A history entry used to fill histories in concrete states. -/
def histEntry0 : HistoryEntry :=
  { round := 0, choice := .cooperate, score := 100, timestamp := 0
    rewards := initialRewards }

/-- Alice with a history already at the limit. -/
def fullAlice : Player := { demoAlice with history := List.replicate 100 histEntry0 }

def fullState : EngineState :=
  { players := [("idA", fullAlice), ("idB", demoBob)]
    waitingPlayers := []
    matchesMap := [("idA", "idB"), ("idB", "idA")]
    socketToPlayerId := [("sockA", "idA"), ("sockB", "idB")]
    globalRewards := initialRewards
    redis := []
    fates := [] }

theorem C8_history_bounded_witness :
    demoAlice.history.length ≤ HISTORY_LIMIT ∧
    (∃ q, mapGet (makeChoiceHandler fullState "sockA" "betray" 5 10).1.players
        "idA" = some q ∧
      q.history = fullAlice.history.drop 1 ++
        [submittedEntry fullState fullAlice .betray 5] ∧
      q.history.length = HISTORY_LIMIT) :=
  ⟨C8_history_bounded.1 demoState demoState_reachable "idA" demoAlice (by decide),
   C8_history_bounded.2 fullState "sockA" "betray" 5 10 "idA" "idB" fullAlice
     demoBob .betray (Or.inr ⟨rfl, rfl⟩) rfl rfl rfl rfl rfl (by decide) rfl⟩

/-- A history entry matching a first submission by Alice. -/
def histEntry1 : HistoryEntry :=
  { round := 0, choice := .cooperate, score := 100, timestamp := 1
    rewards := initialRewards }

/-- Alice after one pending submission, her opponent still undecided. -/
def midAlice : Player :=
  { demoAlice with currentChoice := some .cooperate, history := [histEntry1] }

def midState : EngineState :=
  { players := [("idA", midAlice), ("idB", demoBob)]
    waitingPlayers := []
    matchesMap := [("idA", "idB"), ("idB", "idA")]
    socketToPlayerId := [("sockA", "idA"), ("sockB", "idB")]
    globalRewards := initialRewards
    redis := []
    fates := [] }

theorem C10_double_submission_witness :
    (makeChoiceHandler midState "sockA" "betray" 2 10).2 = [] ∧
    ∃ q, mapGet (makeChoiceHandler midState "sockA" "betray" 2 10).1.players
        "idA" = some q ∧
      q.currentChoice = some Choice.betray ∧
      q.history = midAlice.history ++ [submittedEntry midState midAlice .betray 2] ∧
      (submittedEntry midState midAlice .betray 2).round = midAlice.currentRound ∧
      2 ≤ (q.history.filter (fun e => e.round = midAlice.currentRound)).length :=
  C10_double_submission histEntry1 (Or.inr ⟨rfl, rfl⟩) rfl rfl rfl rfl rfl
    (by decide) rfl (by decide) rfl (by decide)


/-- A queue holding a dead id (no registry record) ahead of two live,
connected participants. -/
def staleQueueState : EngineState :=
  { players := [("idA", demoAlice), ("idB", demoBob)]
    waitingPlayers := ["deadId", "idA", "idB"]
    matchesMap := []
    socketToPlayerId := [("sockA", "idA"), ("sockB", "idB")]
    globalRewards := initialRewards
    redis := []
    fates := [] }

/-- C5 counterexample: on a queue holding one dead id followed by two
live ids, the matchmaking pass only drops the dead id and returns — the
two live ids are left unpaired and unnotified, contradicting the claimed
immediate retry and drain. -/
theorem C5_counterexample :
    mapGet staleQueueState.players "deadId" = none ∧
    mapGet staleQueueState.players "idA" = some demoAlice ∧
    mapGet staleQueueState.players "idB" = some demoBob ∧
    (matchPlayers 4 staleQueueState).1.waitingPlayers = ["idA", "idB"] ∧
    (matchPlayers 4 staleQueueState).1.matchesMap = [] ∧
    (matchPlayers 4 staleQueueState).2 = [] := by
  decide

/-- C5 (amended): when the first popped candidate has no live registry
record, the pass deletes the recordless candidates from the queue and
returns immediately: the match table, the registry and the output are
untouched and no retry happens even with fuel to spare; the remaining
live ids are paired only by a later pass. -/
theorem C5_amended_drop_without_retry {s : EngineState} {p1 p2 : PlayerId}
    {rest : List PlayerId} (fuel : Nat)
    (hw : s.waitingPlayers = p1 :: p2 :: rest)
    (hdead : mapGet s.players p1 = none) :
    (matchPlayers (fuel + 1) s).1.matchesMap = s.matchesMap ∧
    (matchPlayers (fuel + 1) s).1.players = s.players ∧
    (matchPlayers (fuel + 1) s).2 = [] ∧
    p1 ∉ (matchPlayers (fuel + 1) s).1.waitingPlayers ∧
    (mapGet s.players p2 ≠ none →
      (matchPlayers (fuel + 1) s).1.waitingPlayers = setDelete s.waitingPlayers p1) := by
  rcases hp2 : mapGet s.players p2 with _ | player2 <;>
    simp only [matchPlayers, hw, hdead, hp2, eq_self_iff_true, if_true,
      reduceCtorEq, if_false]
  · refine ⟨by trivial, by trivial, by trivial, ?_, ?_⟩
    · intro hmem
      try dsimp only at hmem
      rw [mem_setDelete] at hmem
      rw [mem_setDelete] at hmem
      exact hmem.1.2 rfl
    · intro hcon
      simp at hcon
  · refine ⟨by trivial, by trivial, by trivial, ?_, fun _ => ?_⟩
    · intro hmem
      try dsimp only at hmem
      rw [mem_setDelete] at hmem
      exact hmem.2 rfl
    · trivial

theorem C5_amended_drop_without_retry_witness :
    (matchPlayers 4 staleQueueState).1.matchesMap = staleQueueState.matchesMap ∧
    (matchPlayers 4 staleQueueState).1.players = staleQueueState.players ∧
    (matchPlayers 4 staleQueueState).2 = [] ∧
    "deadId" ∉ (matchPlayers 4 staleQueueState).1.waitingPlayers ∧
    (mapGet staleQueueState.players "idA" ≠ none →
      (matchPlayers 4 staleQueueState).1.waitingPlayers =
        setDelete staleQueueState.waitingPlayers "deadId") :=
  C5_amended_drop_without_retry 3 rfl rfl


/-- An externally mutated payoff matrix, distinct from the initial
one. -/
def mutatedRewards : Rewards :=
  { cooperate := 30, betray := 50, bothCooperate := 20, bothBetray := 10 }

/-- The process-wide matrix is mutated after Alice's submission (whose
provisional entry snapshotted the initial matrix) and before Bob's. -/
def c4State : EngineState := { midState with globalRewards := mutatedRewards }

/-- C4 counterexample: Alice submitted under the initial matrix — her
provisional history entry records that snapshot — but the matrix is
mutated before the opponent completes the round, and the settlement
computes her delta (-30) from the mutated matrix rather than from the
recorded snapshot (-3): the matrix is read again at settlement, not
once per round. -/
theorem C4_counterexample :
    (mapGet c4State.players "idA").map (fun p => p.history.map (fun e => e.rewards)) =
      some [initialRewards] ∧
    { toSock := "sockA", msg := ServerMsg.roundComplete (-30) 70 .betray "Bob" } ∈
      (makeChoiceHandler c4State "sockB" "betray" 2 10).2 ∧
    (specPayoff initialRewards .cooperate .betray).1 = -3 ∧
    (-30 : Int) ≠ -3 := by
  decide

/-- C4 (amended): each provisional history entry records the payoff
matrix as it stands at its own submission time, while the settlement
deltas are computed from the matrix as it stands at settlement time;
the two agree whenever the matrix is unchanged in between, but they are
separate reads, not a single per-round snapshot. -/
theorem C4_amended_snapshot_vs_settlement :
    (∀ (s : EngineState) (player : Player) (c : Choice) (now : Nat),
      (submittedEntry s player c now).rewards = s.globalRewards) ∧
    (∀ (s : EngineState) (c1 c2 : Choice),
      calculateScores s c1 c2 = specPayoff s.globalRewards c1 c2) ∧
    (∀ (s t : EngineState) (c1 c2 : Choice), s.globalRewards = t.globalRewards →
      calculateScores t c1 c2 = specPayoff s.globalRewards c1 c2) ∧
    (∀ (s : EngineState) (sockId : SocketId) (choiceStr : String) (now fuel : Nat)
       (playerId opponentId : PlayerId) (player opponent : Player) (c : Choice),
      ((choiceStr = "cooperate" ∧ c = .cooperate) ∨
        (choiceStr = "betray" ∧ c = .betray)) →
      mapGet s.socketToPlayerId sockId = some playerId →
      mapGet s.players playerId = some player →
      mapGet s.matchesMap playerId = some opponentId →
      mapGet s.players opponentId = some opponent →
      opponent.currentChoice = none →
      opponentId ≠ playerId →
      (makeChoiceHandler s sockId choiceStr now fuel).1.players =
        mapSet s.players playerId
          { player with
            currentChoice := some c
            history := trimHistory (player.history ++
              [submittedEntry s player c now]) }) := by
  refine ⟨fun _ _ _ _ => rfl, fun s c1 c2 => ?_, fun s t c1 c2 h => ?_, ?_⟩
  · cases c1 <;> cases c2 <;> rfl
  · have ht : calculateScores t c1 c2 = specPayoff t.globalRewards c1 c2 := by
      cases c1 <;> cases c2 <;> rfl
    rw [ht, ← h]
  · intro s sockId choiceStr now fuel playerId opponentId player opponent c
      hvalid hsock hpl hop hoppl hopch hne
    exact (makeChoice_pending hvalid hsock hpl hop hoppl hopch hne).2

theorem C4_amended_snapshot_vs_settlement_witness :
    (submittedEntry midState midAlice Choice.betray 2).rewards =
      midState.globalRewards ∧
    calculateScores c4State Choice.betray Choice.cooperate =
      specPayoff c4State.globalRewards Choice.betray Choice.cooperate ∧
    calculateScores bothChosenState Choice.cooperate Choice.betray =
      specPayoff bothChosenState.globalRewards Choice.cooperate Choice.betray ∧
    (makeChoiceHandler midState "sockA" "betray" 2 10).1.players =
      mapSet midState.players "idA"
        { midAlice with
          currentChoice := some Choice.betray
          history := trimHistory (midAlice.history ++
            [submittedEntry midState midAlice Choice.betray 2]) } :=
  ⟨C4_amended_snapshot_vs_settlement.1 midState midAlice Choice.betray 2,
   C4_amended_snapshot_vs_settlement.2.1 c4State Choice.betray Choice.cooperate,
   C4_amended_snapshot_vs_settlement.2.2.1 bothChosenState bothChosenState
     Choice.cooperate Choice.betray rfl,
   C4_amended_snapshot_vs_settlement.2.2.2 midState "sockA" "betray" 2 10
     "idA" "idB" midAlice demoBob Choice.betray (Or.inr ⟨rfl, rfl⟩)
     rfl rfl rfl rfl rfl (by decide)⟩


/-- Alice and Bob with both choices in, but the durable store rejecting
every write. -/
def c6State : EngineState := { bothChosenState with fates := [false, false, false, false] }

/-- C6 counterexample: with both settlement writes failing, the store is
left untouched yet both sides still receive their `roundComplete`
success notification — the reply is not withheld when the write fails. -/
theorem C6_counterexample :
    (checkMatchCompletion c6State "idA" "idB" 10).1.redis = c6State.redis ∧
    c6State.redis = [] ∧
    { toSock := "sockA", msg := ServerMsg.roundComplete (-3) 97 .betray "Bob" } ∈
      (checkMatchCompletion c6State "idA" "idB" 10).2 ∧
    { toSock := "sockB", msg := ServerMsg.roundComplete 5 105 .cooperate "Alice" } ∈
      (checkMatchCompletion c6State "idA" "idB" 10).2 := by
  decide

theorem settleRound_emit_left {s : EngineState} {a b : PlayerId}
    (player1 player2 : Player) (c1 c2 : Choice) {sock1 : SocketId}
    (hs1 : findSocketByPlayerId s a = some sock1) :
    { toSock := sock1
      msg := ServerMsg.roundComplete (calculateScores s c1 c2).1
        (player1.score + (calculateScores s c1 c2).1) c2 player2.name } ∈
      (settleRound s a b player1 player2 c1 c2).2 := by
  unfold settleRound
  dsimp only
  simp only [findSocket_updRedis]
  have hsp : ∀ x, findSocketByPlayerId { s with
      players := mapSet (mapSet s.players a
        { player1 with
          score := player1.score + (calculateScores s c1 c2).1
          currentRound := player1.currentRound + 1 }) b
        { player2 with
          score := player2.score + (calculateScores s c1 c2).2
          currentRound := player2.currentRound + 1 } } x =
      findSocketByPlayerId s x := fun _ => rfl
  simp only [hsp, hs1]
  cases hfb : findSocketByPlayerId s b <;> simp

/-- C6 (amended): the login path really does gate its confirmation on
the durable write — a rejected write suppresses `loginSuccess` (an error
is reported instead), and whenever `loginSuccess` is emitted the record
it carries is present in the store — but choice-submission and
settlement writes are fire-and-forget with the error swallowed, so the
`roundComplete` notification to a connected side is emitted regardless
of the pending write fates. -/
theorem C6_amended_persistence_gating :
    (∀ (s : EngineState) (sockId : SocketId) (dataPlayerId : Option PlayerId)
       (dataPlayerName : Option String) (freshId : PlayerId),
      s.fates.headD true = false →
      ∀ e ∈ (loginHandler s sockId dataPlayerId dataPlayerName freshId).2,
        ∀ p isNew, e.msg ≠ ServerMsg.loginSuccess p isNew) ∧
    (∀ (s : EngineState) (sockId : SocketId) (dataPlayerId : Option PlayerId)
       (dataPlayerName : Option String) (freshId : PlayerId)
       (e : Emit) (p : Player) (isNew : Bool),
      e ∈ (loginHandler s sockId dataPlayerId dataPlayerName freshId).2 →
      e.msg = ServerMsg.loginSuccess p isNew →
      mapGet (loginHandler s sockId dataPlayerId dataPlayerName freshId).1.redis
        p.id = some p) ∧
    (∀ (s : EngineState) (a b : PlayerId) (player1 player2 : Player)
       (c1 c2 : Choice) (sock1 : SocketId),
      findSocketByPlayerId s a = some sock1 →
      { toSock := sock1
        msg := ServerMsg.roundComplete (calculateScores s c1 c2).1
          (player1.score + (calculateScores s c1 c2).1) c2 player2.name } ∈
        (settleRound s a b player1 player2 c1 c2).2) := by
  refine ⟨?_, ?_, ?_⟩
  · intro s sockId dataPlayerId dataPlayerName freshId hfate e he p isNew
    unfold loginHandler at he
    by_cases hlen : (dataPlayerName.getD "匿名玩家").length > 20
    · rw [if_pos hlen] at he
      simp only [List.mem_singleton] at he
      subst he
      intro hmsg
      exact ServerMsg.noConfusion hmsg
    · rw [if_neg hlen] at he
      dsimp only at he
      split at he
      · rename_i hok
        have hok2 : s.fates.headD true = true := hok
        rw [hfate] at hok2
        exact Bool.noConfusion hok2
      · simp only [List.mem_singleton] at he
        subst he
        intro hmsg
        exact ServerMsg.noConfusion hmsg
  · intro s sockId dataPlayerId dataPlayerName freshId e p isNew he hmsg
    unfold loginHandler at he ⊢
    by_cases hlen : (dataPlayerName.getD "匿名玩家").length > 20
    · rw [if_pos hlen] at he
      simp only [List.mem_singleton] at he
      subst he
      exact absurd hmsg (by intro h; exact ServerMsg.noConfusion h)
    · rw [if_neg hlen] at he ⊢
      dsimp only at he ⊢
      split at he
      · rename_i hok
        rw [if_pos hok]
        simp only [List.mem_singleton] at he
        subst he
        cases hmsg
        dsimp only
        rcases dataPlayerId with _ | pid
        · dsimp only
          exact mapGet_mapSet_self _ _ _
        · rcases hst : mapGet s.redis pid with _ | stored <;>
            simp only [hst] <;> try dsimp only
          all_goals exact mapGet_mapSet_self _ _ _
      · rename_i hok
        rw [if_neg hok]
        simp only [List.mem_singleton] at he
        subst he
        exact absurd hmsg (by intro h; exact ServerMsg.noConfusion h)
  · intro s a b player1 player2 c1 c2 sock1 hs1
    exact settleRound_emit_left player1 player2 c1 c2 hs1


/-- A fresh player record as the login path builds it for name "Al" and
fresh id "fresh1". -/
def freshAl : Player :=
  { id := "fresh1"
    name := "Al"
    score := INITIAL_SCORE
    history := []
    currentRound := 0
    currentChoice := none
    totalGames := 0 }

/-- An empty server whose next durable write is doomed to fail. -/
def failLoginState : EngineState := initState [false]

theorem C6_amended_persistence_gating_witness :
    (({ toSock := "sockW", msg := ServerMsg.errorMsg "登录失败，请重试" } : Emit).msg ≠
       ServerMsg.loginSuccess freshAl true) ∧
    mapGet (loginHandler (initState []) "sockW" none (some "Al") "fresh1").1.redis
      "fresh1" = some freshAl ∧
    ({ toSock := "sockA", msg := ServerMsg.roundComplete (-3) 97 Choice.betray "Bob" } : Emit) ∈
      (settleRound bothChosenState "idA" "idB"
        { demoAlice with currentChoice := some Choice.cooperate }
        { demoBob with currentChoice := some Choice.betray }
        Choice.cooperate Choice.betray).2 := by
  refine ⟨?_, ?_, ?_⟩
  · exact C6_amended_persistence_gating.1 failLoginState "sockW" none (some "Al")
      "fresh1" rfl { toSock := "sockW", msg := ServerMsg.errorMsg "登录失败，请重试" }
      (by decide) freshAl true
  · exact C6_amended_persistence_gating.2.1 (initState []) "sockW" none (some "Al")
      "fresh1" { toSock := "sockW", msg := ServerMsg.loginSuccess freshAl true }
      freshAl true (by decide) rfl
  · exact C6_amended_persistence_gating.2.2 bothChosenState "idA" "idB"
      { demoAlice with currentChoice := some Choice.cooperate }
      { demoBob with currentChoice := some Choice.betray }
      Choice.cooperate Choice.betray "sockA" (by decide)


/-! ### The text layer of the store

Redis holds every field as text: the login writer (src/index.js lines
180-189) stores `String(...)` of each numeric field, and the readers
(lines 145-153 and 224-233) recover them with
`parseInt(redisData.field || default)`.  `String(n)` of an integer is
its decimal form with an optional leading minus; `parseInt` with no
radix skips leading whitespace and reads an optional sign, after which
a `0x`/`0X` prefix switches to base 16 and anything else is read as the
longest leading run of decimal digits; reading no digit at all yields
NaN (modelled as `none`). -/

/-- Decimal value of a digit character, `none` for any other. -/
def charDigit? (c : Char) : Option Nat :=
  if '0' ≤ c ∧ c ≤ '9' then some (c.toNat - 48) else none

/-- The character of a decimal digit. -/
def digitToChar (d : Nat) : Char := Char.ofNat (48 + d)

/-- The longest leading run of decimal digits. -/
def leadDigits : List Char → List Nat
  | [] => []
  | c :: cs =>
    match charDigit? c with
    | some d => d :: leadDigits cs
    | none => []

/-- The number a most-significant-first digit list denotes. -/
def digitsToNat (l : List Nat) : Nat := l.foldl (fun a d => 10 * a + d) 0

/-- The whitespace `parseInt` strips before reading (the code points JS
treats as StrWhiteSpace that can occur in a byte-or-text store). -/
def isJsSpace (c : Char) : Bool :=
  c = ' ' || c = '\t' || c = '\n' || c = '\r' || c = '\x0b' || c = '\x0c' || c = '\u00A0'

/-- Drop the leading whitespace, as `parseInt` does. -/
def dropSpaces : List Char → List Char
  | [] => []
  | c :: cs => if isJsSpace c then dropSpaces cs else c :: cs

/-- Hexadecimal value of a digit character, `none` for any other. -/
def charHexDigit? (c : Char) : Option Nat :=
  if '0' ≤ c ∧ c ≤ '9' then some (c.toNat - 48)
  else if 'a' ≤ c ∧ c ≤ 'f' then some (c.toNat - 87)
  else if 'A' ≤ c ∧ c ≤ 'F' then some (c.toNat - 55)
  else none

/-- The longest leading run of hexadecimal digits. -/
def leadHexDigits : List Char → List Nat
  | [] => []
  | c :: cs =>
    match charHexDigit? c with
    | some d => d :: leadHexDigits cs
    | none => []

/-- The number a most-significant-first hexadecimal digit list denotes. -/
def hexToNat (l : List Nat) : Nat := l.foldl (fun a d => 16 * a + d) 0

/-- The magnitude after the optional sign: a `0x`/`0X` prefix switches
to base 16, anything else is the longest leading run of decimal digits;
no digit at all is NaN (`none`). -/
def jsParseUnsigned : List Char → Option Nat
  | c0 :: c1 :: rest =>
    if c0 = '0' ∧ (c1 = 'x' ∨ c1 = 'X') then
      if leadHexDigits rest = [] then none
      else some (hexToNat (leadHexDigits rest))
    else
      if leadDigits (c0 :: c1 :: rest) = [] then none
      else some (digitsToNat (leadDigits (c0 :: c1 :: rest)))
  | cs =>
    if leadDigits cs = [] then none
    else some (digitsToNat (leadDigits cs))

/-- `parseInt` on an exploded string: leading whitespace skipped, an
optional sign, then the magnitude; `none` is NaN. -/
def jsParseIntChars (cs : List Char) : Option Int :=
  match dropSpaces cs with
  | [] => none
  | c :: rest =>
    if c = '-' then (jsParseUnsigned rest).map (fun n : Nat => -(n : Int))
    else if c = '+' then (jsParseUnsigned rest).map (fun n : Nat => (n : Int))
    else (jsParseUnsigned (c :: rest)).map (fun n : Nat => (n : Int))

/-- JS `parseInt(s)` as the readers use it. -/
def jsParseInt (s : String) : Option Int := jsParseIntChars s.data

/-- Decimal digits of `n`, least significant first; `fuel` bounds the
recursion (`n + 1` always suffices). -/
def natToRevDigitsAux : Nat → Nat → List Nat
  | 0, _ => []
  | fuel + 1, n => if n < 10 then [n] else n % 10 :: natToRevDigitsAux fuel (n / 10)

/-- Decimal digits of `n`, least significant first. -/
def natToRevDigits (n : Nat) : List Nat := natToRevDigitsAux (n + 1) n

/-- The decimal character string of `n`. -/
def natChars (n : Nat) : List Char := (natToRevDigits n).reverse.map digitToChar

/-- JS `String(z)` of an integer: decimal form, minus sign when negative. -/
def intToString (z : Int) : String :=
  if z < 0 then String.mk ('-' :: natChars z.natAbs) else String.mk (natChars z.toNat)

theorem charDigit?_digitToChar (d : Nat) (h : d < 10) :
    charDigit? (digitToChar d) = some d := by
  interval_cases d <;> decide

theorem digitToChar_ne_dash (d : Nat) (h : d < 10) : digitToChar d ≠ '-' := by
  interval_cases d <;> decide

theorem digitToChar_ne_plus (d : Nat) (h : d < 10) : digitToChar d ≠ '+' := by
  interval_cases d <;> decide

theorem digitToChar_not_space (d : Nat) (h : d < 10) : isJsSpace (digitToChar d) = false := by
  interval_cases d <;> decide

theorem digitToChar_ne_hex_x (d : Nat) (h : d < 10) : digitToChar d ≠ 'x' := by
  interval_cases d <;> decide

theorem digitToChar_ne_hex_X (d : Nat) (h : d < 10) : digitToChar d ≠ 'X' := by
  interval_cases d <;> decide

theorem dropSpaces_cons (c : Char) (cs : List Char) (h : isJsSpace c = false) :
    dropSpaces (c :: cs) = c :: cs := by
  simp [dropSpaces, h]

theorem leadDigits_map (l : List Nat) (h : ∀ d ∈ l, d < 10) :
    leadDigits (l.map digitToChar) = l := by
  induction l with
  | nil => rfl
  | cons d t ih =>
    simp only [List.map_cons, leadDigits]
    rw [charDigit?_digitToChar d (h d (List.mem_cons_self d t))]
    rw [ih (fun x hx => h x (List.mem_cons_of_mem d hx))]

theorem digitsToNat_append (l : List Nat) (d : Nat) :
    digitsToNat (l ++ [d]) = 10 * digitsToNat l + d := by
  unfold digitsToNat
  rw [List.foldl_append]
  rfl

theorem natToRevDigitsAux_lt : ∀ (fuel n : Nat), ∀ d ∈ natToRevDigitsAux fuel n, d < 10 := by
  intro fuel
  induction fuel with
  | zero =>
    intro n d hd
    simp [natToRevDigitsAux] at hd
  | succ f ih =>
    intro n d hd
    unfold natToRevDigitsAux at hd
    by_cases h10 : n < 10
    · rw [if_pos h10] at hd
      simp only [List.mem_singleton] at hd
      omega
    · rw [if_neg h10] at hd
      rcases List.mem_cons.mp hd with h | h
      · omega
      · exact ih (n / 10) d h

theorem natToRevDigitsAux_val : ∀ (fuel n : Nat), n < fuel →
    digitsToNat (natToRevDigitsAux fuel n).reverse = n := by
  intro fuel
  induction fuel with
  | zero =>
    intro n h
    omega
  | succ f ih =>
    intro n h
    unfold natToRevDigitsAux
    by_cases h10 : n < 10
    · rw [if_pos h10]
      have hr : digitsToNat [n].reverse = 10 * 0 + n := rfl
      omega
    · rw [if_neg h10]
      rw [List.reverse_cons, digitsToNat_append]
      rw [ih (n / 10) (by omega)]
      omega

theorem natToRevDigits_ne_nil (n : Nat) : natToRevDigits n ≠ [] := by
  show natToRevDigitsAux (n + 1) n ≠ []
  unfold natToRevDigitsAux
  split <;> simp

theorem leadDigits_natChars (n : Nat) :
    leadDigits (natChars n) = (natToRevDigits n).reverse :=
  leadDigits_map _ (fun d hd => natToRevDigitsAux_lt (n + 1) n d (List.mem_reverse.mp hd))

theorem jsParseUnsigned_map (l : List Nat) (h : ∀ d ∈ l, d < 10) (hne : l ≠ []) :
    jsParseUnsigned (l.map digitToChar) = some (digitsToNat l) := by
  rcases l with _ | ⟨d, _ | ⟨d2, rest⟩⟩
  · exact absurd rfl hne
  · have hd : d < 10 := h d (List.mem_cons_self d [])
    show jsParseUnsigned [digitToChar d] = some (digitsToNat [d])
    unfold jsParseUnsigned
    try dsimp only
    have hld : leadDigits [digitToChar d] = [d] := by
      have h2 := leadDigits_map [d] (by
        intro x hx
        rw [List.mem_singleton] at hx
        subst hx
        exact hd)
      simpa using h2
    rw [hld]
    rw [if_neg (fun hh => List.noConfusion hh)]
  · have hd2 : d2 < 10 := h d2 (List.mem_cons_of_mem d (List.mem_cons_self d2 rest))
    simp only [List.map_cons]
    unfold jsParseUnsigned
    try dsimp only
    have hcond : ¬ (digitToChar d = '0' ∧ (digitToChar d2 = 'x' ∨ digitToChar d2 = 'X')) := by
      rintro ⟨h0, hx | hX⟩
      · exact digitToChar_ne_hex_x d2 hd2 hx
      · exact digitToChar_ne_hex_X d2 hd2 hX
    rw [if_neg hcond]
    have hld : leadDigits (digitToChar d :: digitToChar d2 :: rest.map digitToChar) =
        d :: d2 :: rest := by
      have h2 := leadDigits_map (d :: d2 :: rest) h
      simpa using h2
    rw [hld]
    rw [if_neg (fun hh => List.noConfusion hh)]

theorem jsParseUnsigned_natChars (n : Nat) : jsParseUnsigned (natChars n) = some n := by
  have hall : ∀ d ∈ (natToRevDigits n).reverse, d < 10 := by
    intro d hd
    exact natToRevDigitsAux_lt (n + 1) n d (List.mem_reverse.mp hd)
  have hval : digitsToNat (natToRevDigits n).reverse = n :=
    natToRevDigitsAux_val (n + 1) n (Nat.lt_succ_self n)
  have hne : (natToRevDigits n).reverse ≠ [] := by
    intro h
    exact natToRevDigits_ne_nil n (List.reverse_eq_nil_iff.mp h)
  have h2 := jsParseUnsigned_map ((natToRevDigits n).reverse) hall hne
  show jsParseUnsigned (((natToRevDigits n).reverse).map digitToChar) = some n
  rw [h2, hval]

theorem jsParseIntChars_natChars (n : Nat) :
    jsParseIntChars (natChars n) = some (n : Int) := by
  have hall : ∀ d ∈ (natToRevDigits n).reverse, d < 10 := by
    intro d hd
    exact natToRevDigitsAux_lt (n + 1) n d (List.mem_reverse.mp hd)
  have hne : (natToRevDigits n).reverse ≠ [] := by
    intro h
    exact natToRevDigits_ne_nil n (List.reverse_eq_nil_iff.mp h)
  rcases hrev : (natToRevDigits n).reverse with _ | ⟨d, rest⟩
  · exact absurd hrev hne
  · have hd10 : d < 10 := hall d (by rw [hrev]; exact List.mem_cons_self d rest)
    have hchars : natChars n = digitToChar d :: rest.map digitToChar := by
      unfold natChars
      rw [hrev]
      rfl
    rw [hchars]
    unfold jsParseIntChars
    rw [dropSpaces_cons _ _ (digitToChar_not_space d hd10)]
    try dsimp only
    rw [if_neg (digitToChar_ne_dash d hd10), if_neg (digitToChar_ne_plus d hd10)]
    rw [← hchars, jsParseUnsigned_natChars n]
    rfl

theorem natChars_ne_nil (n : Nat) : natChars n ≠ [] := by
  intro h
  have hlen : (natToRevDigits n).length = 0 := by
    have h2 := congrArg List.length h
    simpa [natChars] using h2
  exact natToRevDigits_ne_nil n (List.eq_nil_of_length_eq_zero hlen)

theorem jsParseInt_intToString (z : Int) : jsParseInt (intToString z) = some z := by
  unfold jsParseInt intToString
  by_cases hz : z < 0
  · rw [if_pos hz]
    show jsParseIntChars ('-' :: natChars z.natAbs) = some z
    unfold jsParseIntChars
    rw [dropSpaces_cons '-' _ (by decide)]
    try dsimp only
    rw [if_pos rfl]
    rw [jsParseUnsigned_natChars z.natAbs]
    have h2 : -((z.natAbs : Nat) : Int) = z := by omega
    show some (-((z.natAbs : Nat) : Int)) = some z
    rw [h2]
  · rw [if_neg hz]
    show jsParseIntChars (natChars z.toNat) = some z
    rw [jsParseIntChars_natChars]
    have h2 : ((z.toNat : Nat) : Int) = z := by omega
    rw [h2]

theorem intToString_ne_empty (z : Int) : intToString z ≠ "" := by
  unfold intToString
  by_cases hz : z < 0
  · rw [if_pos hz]
    intro h
    have hd : ('-' :: natChars z.natAbs) = ("" : String).data := congrArg String.data h
    exact List.noConfusion hd
  · rw [if_neg hz]
    intro h
    have hd : natChars z.toNat = ("" : String).data := congrArg String.data h
    exact natChars_ne_nil z.toNat hd


/-- A raw Redis hash for one player: every field as optional text
(`none` = the key is absent from the hash).  The `history` field holds
the JSON text as written; its parsing is not modelled beyond
passthrough. -/
structure RawRecord where
  id : Option String
  name : Option String
  score : Option String
  history : Option String
  currentRound : Option String
  currentChoice : Option String
  totalGames : Option String
  lastSeen : Option String
deriving DecidableEq, Repr

/-- `parseInt(v || dflt)` (src/index.js lines 148, 150, 152, 228, 230,
232): an absent or empty field falls back to the numeric default, which
`parseInt` receives coerced through `String(dflt)`; any other text is
parsed as is. -/
def readIntField (v : Option String) (dflt : Int) : Option Int :=
  jsParseInt (match v with
    | none => intToString dflt
    | some s => if s = "" then intToString dflt else s)

/-- A player record as rebuilt from a raw hash; numeric fields are
`Option Int` with `none` standing for NaN. -/
structure RebuiltPlayer where
  id : PlayerId
  name : String
  score : Option Int
  historyText : String
  currentRound : Option Int
  currentChoice : Option String
  totalGames : Option Int
deriving DecidableEq, Repr

/-- The rebuild of lines 145-153: supplied id and name, numeric fields
through `parseInt` with their defaults, `currentChoice` through
`redisData.currentChoice || null`, history text defaulted to "[]". -/
def rebuildPlayerData (playerId : PlayerId) (playerName : String) (r : RawRecord) :
    RebuiltPlayer :=
  { id := playerId
    name := playerName
    score := readIntField r.score INITIAL_SCORE
    historyText := r.history.getD "[]"
    currentRound := readIntField r.currentRound 0
    currentChoice :=
      match r.currentChoice with
      | none => none
      | some s => if s = "" then none else some s
    totalGames := readIntField r.totalGames 0 }

/-- The joinGame recovery of lines 224-233: the same rebuild, the name
taken from the hash with the anonymous fallback. -/
def rebuildFromStore (playerId : PlayerId) (r : RawRecord) : RebuiltPlayer :=
  rebuildPlayerData playerId
    (match r.name with
     | none => "匿名玩家"
     | some s => if s = "" then "匿名玩家" else s) r

/-- `playerData.currentChoice || ''` as the writers serialise it. -/
def choiceText : Option Choice → String
  | none => ""
  | some .cooperate => "cooperate"
  | some .betray => "betray"

/-- The login writer (src/index.js lines 180-189): `String(...)` of each
field of the in-memory record; the JSON text of the history is passed in
as `historyText`. -/
def storedFields (p : Player) (historyText lastSeen : String) : RawRecord :=
  { id := some p.id
    name := some p.name
    score := some (intToString p.score)
    history := some historyText
    currentRound := some (intToString (p.currentRound : Int))
    currentChoice := some (choiceText p.currentChoice)
    totalGames := some (intToString (p.totalGames : Int))
    lastSeen := some lastSeen }

theorem readIntField_none (d : Int) : readIntField none d = some d := by
  unfold readIntField
  exact jsParseInt_intToString d

theorem readIntField_empty (d : Int) : readIntField (some "") d = some d := by
  unfold readIntField
  dsimp only
  rw [if_pos rfl]
  exact jsParseInt_intToString d

theorem readIntField_stored (d z : Int) : readIntField (some (intToString z)) d = some z := by
  unfold readIntField
  dsimp only
  rw [if_neg (intToString_ne_empty z)]
  exact jsParseInt_intToString z

theorem readIntField_nonempty (d : Int) (s : String) (hne : s ≠ "") :
    readIntField (some s) d = jsParseInt s := by
  unfold readIntField
  dsimp only
  rw [if_neg hne]


/-- C7: a login carrying an identifier with a durable record rehydrates
that record — the confirmed record keeps the stored score, totalGames,
history, round and pending choice exactly, takes the freshly supplied
display name, and `isNewPlayer` is false; a login without such an
identifier (none supplied, or no record under it) creates a fresh
default record under the newly synthesised id with `isNewPlayer` true.
At the text level, every numeric field written by the login writer reads
back to its exact value. -/
theorem C7_login_rehydration :
    (∀ (s : EngineState) (sockId : SocketId) (dataPlayerName : Option String)
       (freshId pid : PlayerId) (stored : Player),
      mapGet s.redis pid = some stored →
      ¬ (dataPlayerName.getD "匿名玩家").length > 20 →
      s.fates.headD true = true →
      (loginHandler s sockId (some pid) dataPlayerName freshId).2 =
        [{ toSock := sockId
           msg := ServerMsg.loginSuccess
             { id := pid
               name := dataPlayerName.getD "匿名玩家"
               score := stored.score
               history := stored.history
               currentRound := stored.currentRound
               currentChoice := stored.currentChoice
               totalGames := stored.totalGames } false }]) ∧
    (∀ (s : EngineState) (sockId : SocketId) (dataPlayerName : Option String)
       (freshId : PlayerId) (dataPlayerId : Option PlayerId),
      (dataPlayerId = none ∨
        ∃ pid, dataPlayerId = some pid ∧ mapGet s.redis pid = none) →
      ¬ (dataPlayerName.getD "匿名玩家").length > 20 →
      s.fates.headD true = true →
      (loginHandler s sockId dataPlayerId dataPlayerName freshId).2 =
        [{ toSock := sockId
           msg := ServerMsg.loginSuccess
             { id := freshId
               name := dataPlayerName.getD "匿名玩家"
               score := INITIAL_SCORE
               history := []
               currentRound := 0
               currentChoice := none
               totalGames := 0 } true }]) ∧
    (∀ (p : Player) (htext last : String) (pid : PlayerId) (nm : String),
      (rebuildPlayerData pid nm (storedFields p htext last)).score = some p.score ∧
      (rebuildPlayerData pid nm (storedFields p htext last)).totalGames =
        some (p.totalGames : Int) ∧
      (rebuildPlayerData pid nm (storedFields p htext last)).currentRound =
        some (p.currentRound : Int) ∧
      (rebuildPlayerData pid nm (storedFields p htext last)).name = nm ∧
      (rebuildPlayerData pid nm (storedFields p htext last)).id = pid) := by
  refine ⟨?_, ?_, ?_⟩
  · intro s sockId dataPlayerName freshId pid stored hstore hname hfate
    unfold loginHandler
    try dsimp only
    rw [if_neg hname]
    rw [hstore]
    try dsimp only
    rw [if_pos hfate]
  · intro s sockId dataPlayerName freshId dataPlayerId hfresh hname hfate
    rcases hfresh with hnone | ⟨pid, hpid, hmiss⟩
    · subst hnone
      unfold loginHandler
      try dsimp only
      rw [if_neg hname]
      try dsimp only
      rw [if_pos hfate]
    · subst hpid
      unfold loginHandler
      try dsimp only
      rw [if_neg hname]
      rw [hmiss]
      try dsimp only
      rw [if_pos hfate]
  · intro p htext last pid nm
    refine ⟨?_, ?_, ?_, rfl, rfl⟩
    · exact readIntField_stored INITIAL_SCORE p.score
    · exact readIntField_stored 0 (p.totalGames : Int)
    · exact readIntField_stored 0 (p.currentRound : Int)


/-- An otherwise empty server whose store already holds Alice's record
under "idA". -/
def rehydStore : EngineState :=
  { initState [] with redis := [("idA", demoAlice)] }

theorem C7_login_rehydration_witness :
    (loginHandler rehydStore "sockW" (some "idA") (some "Ally") "freshX").2 =
      [{ toSock := "sockW"
         msg := ServerMsg.loginSuccess
           { id := "idA"
             name := "Ally"
             score := demoAlice.score
             history := demoAlice.history
             currentRound := demoAlice.currentRound
             currentChoice := demoAlice.currentChoice
             totalGames := demoAlice.totalGames } false }] ∧
    (loginHandler (initState []) "sockW" none (some "Newb") "freshX").2 =
      [{ toSock := "sockW"
         msg := ServerMsg.loginSuccess
           { id := "freshX"
             name := "Newb"
             score := INITIAL_SCORE
             history := []
             currentRound := 0
             currentChoice := none
             totalGames := 0 } true }] ∧
    (rebuildPlayerData "idA" "Ally" (storedFields demoAlice "[]" "t0")).score =
      some demoAlice.score := by
  refine ⟨?_, ?_, ?_⟩
  · exact C7_login_rehydration.1 rehydStore "sockW" (some "Ally") "freshX" "idA"
      demoAlice (by decide) (by decide) rfl
  · exact C7_login_rehydration.2.1 (initState []) "sockW" (some "Newb") "freshX" none
      (Or.inl rfl) (by decide) rfl
  · exact (C7_login_rehydration.2.2 demoAlice "[]" "t0" "idA" "Ally").1


/-- A stored hash whose score field holds non-numeric text. -/
def corruptRecord : RawRecord :=
  { id := some "idC"
    name := some "Cora"
    score := some "abc"
    history := none
    currentRound := none
    currentChoice := none
    lastSeen := none
    totalGames := none }

/-- C9 counterexample: a persisted score of corrupt text "abc" is read
back as NaN (`none`), not as the configured initial value 100 — the
`|| default` fallback fires only on absent or empty text, never on
non-numeric text. -/
theorem C9_counterexample :
    jsParseInt "abc" = none ∧
    (rebuildPlayerData "idC" "Cora" corruptRecord).score = none ∧
    (none : Option Int) ≠ some INITIAL_SCORE := by
  refine ⟨rfl, rfl, by decide⟩

/-- C9 (amended): a numeric field read back from the store parses to the
configured default when the text is absent or empty, and to the stored
integer exactly when the text is the canonical `String(z)` form the
writers produce; any other non-empty text is handed to `parseInt`
unchanged — leading whitespace is skipped and a `0x` prefix is read as
hexadecimal, and text `parseInt` reads no digit from (such as "abc")
yields NaN, never the default.  The login rebuild reads score,
currentRound and totalGames exactly this way, with defaults 100, 0 and
0. -/
theorem C9_amended_parse_defaults :
    (∀ d : Int, readIntField none d = some d) ∧
    (∀ d : Int, readIntField (some "") d = some d) ∧
    (∀ (d z : Int), readIntField (some (intToString z)) d = some z) ∧
    (∀ (d : Int) (s : String), s ≠ "" → readIntField (some s) d = jsParseInt s) ∧
    (∀ (pid : PlayerId) (nm : String) (r : RawRecord),
      (rebuildPlayerData pid nm r).score = readIntField r.score INITIAL_SCORE ∧
      (rebuildPlayerData pid nm r).currentRound = readIntField r.currentRound 0 ∧
      (rebuildPlayerData pid nm r).totalGames = readIntField r.totalGames 0) := by
  refine ⟨readIntField_none, readIntField_empty, readIntField_stored,
    readIntField_nonempty, ?_⟩
  intro pid nm r
  exact ⟨rfl, rfl, rfl⟩

theorem C9_amended_parse_defaults_witness :
    readIntField none (100 : Int) = some 100 ∧
    readIntField (some "") (0 : Int) = some 0 ∧
    readIntField (some (intToString (-42))) (100 : Int) = some (-42) ∧
    readIntField (some "abc") (100 : Int) = none ∧
    readIntField (some " 5") (100 : Int) = some 5 ∧
    readIntField (some "0x10") (100 : Int) = some 16 ∧
    (rebuildPlayerData "idC" "Cora" corruptRecord).currentRound =
      readIntField corruptRecord.currentRound 0 := by
  refine ⟨C9_amended_parse_defaults.1 100, C9_amended_parse_defaults.2.1 0,
    C9_amended_parse_defaults.2.2.1 100 (-42),
    (C9_amended_parse_defaults.2.2.2.1 100 "abc" (by decide)).trans rfl,
    (C9_amended_parse_defaults.2.2.2.1 100 " 5" (by decide)).trans (by decide),
    (C9_amended_parse_defaults.2.2.2.1 100 "0x10" (by decide)).trans (by decide),
    (C9_amended_parse_defaults.2.2.2.2 "idC" "Cora" corruptRecord).2.1⟩

end TrustPVP
